import Mathlib

/-!
Shallow embedding of the crypto_api_chachapoly library (ChaCha20, Poly1305,
ChaCha20-Poly1305-IETF and XChaCha20-Poly1305 AEAD) and proofs about the
claims of its specification.

Machine integers are modelled as Nat with explicit reduction modulo 2^32
resp. 2^64 wherever the Rust code wraps (the add!/sub!/mul!/shl!/shr!/neg!
macros of src/macros.rs are the functions add32/... below).  Byte buffers
are lists of Nat; in-place mutation is modelled by returning the new buffer
contents.  Functions that can panic return Option (none = panic).
-/

/-! ## src/macros.rs: wrapping primitives -/

/-- Macro add! on u32: addition without overflow trap. -/
def add32 (a b : Nat) : Nat := (a + b) % 2^32

/-- Macro add! on u64. -/
def add64 (a b : Nat) : Nat := (a + b) % 2^64

/-- Macro sub! on u32: wrapping subtraction (operands are u32 values). -/
def sub32 (a b : Nat) : Nat := (2^32 + a - b) % 2^32

/-- Macro mul! on u32. -/
def mul32 (a b : Nat) : Nat := (a * b) % 2^32

/-- Macro mul! on u64. -/
def mul64 (a b : Nat) : Nat := (a * b) % 2^64

/-- Macro shr! on u32: wrapping_shr masks the shift amount. -/
def shr32 (a b : Nat) : Nat := a >>> (b % 32)

/-- Macro shr! on u64. -/
def shr64 (a b : Nat) : Nat := a >>> (b % 64)

/-- Macro shl! on u32: wrapping_shl masks the shift amount, the result is a u32. -/
def shl32 (a b : Nat) : Nat := (a <<< (b % 32)) % 2^32

/-- Macro shl! on u64. -/
def shl64 (a b : Nat) : Nat := (a <<< (b % 64)) % 2^64

/-- Macro neg! on u32: wrapping negation. -/
def neg32 (a : Nat) : Nat := (2^32 - a) % 2^32

/-- Macro not_bool!: xor!($a, 1). -/
def not_bool (a : Nat) : Nat := a ^^^ 1

/-- Macro gt!: branch-free u32 greater-than returning 1 or 0. -/
def gt32 (a b : Nat) : Nat :=
  shr32 ((sub32 b a) ^^^ ((a ^^^ b) &&& (a ^^^ (sub32 b a)))) 31

/-- Macro eq!: branch-free u32 equality returning 1 or 0. -/
def eq32 (a b : Nat) : Nat :=
  not_bool (shr32 ((a ^^^ b) ||| neg32 (a ^^^ b)) 31)

/-- Macro mux_bool!: returns x if c == 1, y if c == 0. -/
def mux_bool (c x y : Nat) : Nat := y ^^^ ((neg32 c) &&& (x ^^^ y))

/-- Macro read32_le!: little-endian u32 load from four bytes at offset i
(missing bytes read as 0; the Rust slices always contain them). -/
def read32LE (d : List Nat) (i : Nat) : Nat :=
  shl32 (d.getD i 0) 0 ||| shl32 (d.getD (i+1) 0) 8 |||
  shl32 (d.getD (i+2) 0) 16 ||| shl32 (d.getD (i+3) 0) 24

/-- Macro write32_le!: little-endian serialization of the low 32 bits
(the u8 casts are the mod 2^8 reductions). -/
def write32LE (n : Nat) : List Nat :=
  [shr32 n 0 % 2^8, shr32 n 8 % 2^8, shr32 n 16 % 2^8, shr32 n 24 % 2^8]

/-- Macro write64_le!: two write32_le! calls for the low and high halves. -/
def write64LE (n : Nat) : List Nat :=
  write32LE (shr64 n 0) ++ write32LE (shr64 n 32)

/-- Macro eq_ct!: constant-time comparison; accumulates the or of the
bytewise xors, false immediately on a length mismatch. -/
def eq_ct (a b : List Nat) : Bool :=
  if a.length = b.length then
    ((List.zipWith (fun x y => x ^^^ y) a b).foldl (fun x q => x ||| q) 0) == 0
  else false

/-! ## Basic facts about the primitives -/

theorem shl32_lt (x k : Nat) : shl32 x k < 2^32 := Nat.mod_lt _ (by norm_num)

theorem read32LE_lt (d : List Nat) (i : Nat) : read32LE d i < 2^32 := by
  unfold read32LE
  exact Nat.or_lt_two_pow
    (Nat.or_lt_two_pow (Nat.or_lt_two_pow (shl32_lt _ _) (shl32_lt _ _)) (shl32_lt _ _))
    (shl32_lt _ _)

theorem write32LE_length (n : Nat) : (write32LE n).length = 4 := rfl

theorem write64LE_length (n : Nat) : (write64LE n).length = 8 := rfl

theorem testBit31_decide (x : Nat) (hx : x < 2^32) :
    x.testBit 31 = decide (2^31 ≤ x) := by
  rw [Nat.testBit_to_div_mod, decide_eq_decide]
  omega

theorem shr31_eq (x : Nat) : shr32 x 31 = if 2^31 ≤ x then x / 2^31 else 0 := by
  unfold shr32
  have h : (31 : Nat) % 32 = 31 := by norm_num
  rw [h, Nat.shiftRight_eq_div_pow]
  split <;> omega

/-- Helper: the branch-free gt! really is the u32 greater-than test. -/
theorem gt32_spec (a b : Nat) (ha : a < 2^32) (hb : b < 2^32) :
    gt32 a b = if b < a then 1 else 0 := by
  unfold gt32
  have hcv : sub32 b a = (2^32 + b - a) % 2^32 := rfl
  set c := sub32 b a with hcdef
  have hclt : c < 2^32 := by rw [hcv]; exact Nat.mod_lt _ (by norm_num)
  set E := c ^^^ ((a ^^^ b) &&& (a ^^^ c)) with hEdef
  have hE : E < 2^32 :=
    Nat.xor_lt_two_pow hclt (Nat.and_lt_two_pow _ (Nat.xor_lt_two_pow ha hclt))
  rw [shr31_eq]
  have h1 : E.testBit 31 =
      (c.testBit 31 ^^ ((a.testBit 31 ^^ b.testBit 31) && (a.testBit 31 ^^ c.testBit 31))) := by
    rw [hEdef]
    simp [Nat.testBit_xor, Nat.testBit_and]
  rw [testBit31_decide a ha, testBit31_decide b hb, testBit31_decide c hclt,
    testBit31_decide E hE] at h1
  by_cases hA : 2^31 ≤ a <;> by_cases hB : 2^31 ≤ b <;> by_cases hC : 2^31 ≤ c <;>
    (first | rw [decide_eq_true hA] at h1 | rw [decide_eq_false hA] at h1) <;>
    (first | rw [decide_eq_true hB] at h1 | rw [decide_eq_false hB] at h1) <;>
    (first | rw [decide_eq_true hC] at h1 | rw [decide_eq_false hC] at h1) <;>
    simp at h1 <;> split_ifs <;> omega

/-- Helper: the branch-free eq! really is the u32 equality test. -/
theorem eq32_spec (a b : Nat) (ha : a < 2^32) (hb : b < 2^32) :
    eq32 a b = if a = b then 1 else 0 := by
  unfold eq32 not_bool
  by_cases h : a = b
  · subst h
    rw [if_pos rfl]
    simp only [Nat.xor_self, neg32, Nat.sub_zero, Nat.mod_self, Nat.or_self]
    rfl
  · rw [if_neg h]
    have hq : a ^^^ b ≠ 0 := fun hc => h (Nat.xor_eq_zero.mp hc)
    have hqlt : a ^^^ b < 2^32 := Nat.xor_lt_two_pow ha hb
    have hneg : neg32 (a ^^^ b) = 2^32 - (a ^^^ b) := by unfold neg32; omega
    have hneg_lt : neg32 (a ^^^ b) < 2^32 := by omega
    have horlt : ((a ^^^ b) ||| neg32 (a ^^^ b)) < 2^32 := Nat.or_lt_two_pow hqlt hneg_lt
    have htb : ((a ^^^ b) ||| neg32 (a ^^^ b)).testBit 31 =
        ((a ^^^ b).testBit 31 || (neg32 (a ^^^ b)).testBit 31) := Nat.testBit_lor _ _ _
    rw [testBit31_decide _ horlt, testBit31_decide _ hqlt, testBit31_decide _ hneg_lt] at htb
    have hor : 2^31 ≤ ((a ^^^ b) ||| neg32 (a ^^^ b)) := by
      by_cases hl : 2^31 ≤ a ^^^ b
      · have h2 : decide (2^31 ≤ ((a ^^^ b) ||| neg32 (a ^^^ b))) = true := by
          rw [htb, decide_eq_true hl, Bool.true_or]
        exact of_decide_eq_true h2
      · have hr : 2^31 ≤ neg32 (a ^^^ b) := by omega
        have h2 : decide (2^31 ≤ ((a ^^^ b) ||| neg32 (a ^^^ b))) = true := by
          rw [htb, decide_eq_true hr, Bool.or_true]
        exact of_decide_eq_true h2
    rw [shr31_eq, if_pos hor]
    have : ((a ^^^ b) ||| neg32 (a ^^^ b)) / 2^31 = 1 := by omega
    rw [this]
    decide

/-- Helper: mux_bool with a 0/1 condition selects between x and y. -/
theorem mux_bool_spec (x y : Nat) (hx : x < 2^32) (hy : y < 2^32) :
    mux_bool 1 x y = x ∧ mux_bool 0 x y = y := by
  constructor
  · unfold mux_bool neg32
    have h1 : (2^32 - 1) % 2^32 = 2^32 - 1 := by norm_num
    rw [h1]
    have hxy : x ^^^ y < 2^32 := Nat.xor_lt_two_pow hx hy
    have h2 : (2^32 - 1 : Nat) = 2^32 - 1 := rfl
    have h3 : (x ^^^ y) &&& (2^32 - 1) = (x ^^^ y) % 2^32 :=
      Nat.and_pow_two_sub_one_eq_mod (x ^^^ y) 32
    have h4 : (2^32 - 1) &&& (x ^^^ y) = (x ^^^ y) := by
      rw [Nat.land_comm, h3, Nat.mod_eq_of_lt hxy]
    rw [h4]
    rw [Nat.xor_comm x y]
    exact Nat.xor_cancel_left y x
  · unfold mux_bool neg32
    simp [Nat.zero_and]

/-- Helper: the constant-time comparison of a list with itself is true. -/
theorem eq_ct_self (a : List Nat) : eq_ct a a = true := by
  unfold eq_ct
  rw [if_pos rfl]
  have h : ∀ l : List Nat, List.zipWith (fun x y => x ^^^ y) l l = List.replicate l.length 0 := by
    intro l
    induction l with
    | nil => rfl
    | cons x xs ih => simp [List.replicate_succ, ih, Nat.xor_self]
  rw [h]
  have h2 : ∀ n, (List.replicate n (0:Nat)).foldl (fun x q => x ||| q) 0 = 0 := by
    intro n
    induction n with
    | zero => rfl
    | succ m ih => simp [List.replicate_succ, ih]
  rw [h2]
  rfl

theorem or_fold_eq_zero (l : List Nat) (x : Nat) :
    l.foldl (fun a q => a ||| q) x = 0 ↔ x = 0 ∧ ∀ q ∈ l, q = 0 := by
  induction l generalizing x with
  | nil => simp
  | cons q l ih =>
    simp only [List.foldl_cons, ih, List.mem_cons]
    constructor
    · rintro ⟨hx, hall⟩
      have hq : x = 0 ∧ q = 0 := by
        constructor
        · have := Nat.testBit_lor x q
          by_contra hne
          obtain ⟨i, hi⟩ := Nat.ne_zero_implies_bit_true hne
          have : (x ||| q).testBit i = true := by rw [Nat.testBit_lor, hi]; simp
          rw [hx] at this
          simp [Nat.zero_testBit] at this
        · by_contra hne
          obtain ⟨i, hi⟩ := Nat.ne_zero_implies_bit_true hne
          have : (x ||| q).testBit i = true := by rw [Nat.testBit_lor, hi]; simp
          rw [hx] at this
          simp [Nat.zero_testBit] at this
      exact ⟨hq.1, fun r hr => hr.elim (fun h => h ▸ hq.2) (hall r)⟩
    · rintro ⟨hx, hall⟩
      subst hx
      rw [Nat.zero_or]
      exact ⟨hall q (Or.inl rfl), fun r hr => hall r (Or.inr hr)⟩

/-- C8 helper: eq_ct decides list equality. -/
theorem eq_ct_iff_eq (a b : List Nat) : eq_ct a b = true ↔ a = b := by
  unfold eq_ct
  by_cases hlen : a.length = b.length
  · rw [if_pos hlen]
    rw [beq_iff_eq, or_fold_eq_zero]
    simp only [true_and]
    constructor
    · intro h
      exact List.ext_get (by omega) (fun i h1 h2 => by
        have hmem : (a.get ⟨i, h1⟩) ^^^ (b.get ⟨i, h2⟩) ∈
            List.zipWith (fun x y => x ^^^ y) a b := by
          rw [List.mem_iff_get]
          refine ⟨⟨i, by rw [List.length_zipWith]; omega⟩, ?_⟩
          rw [List.get_zipWith]
        have := h _ hmem
        exact Nat.xor_eq_zero.mp this)
    · rintro rfl
      intro q hq
      rw [List.mem_iff_get] at hq
      obtain ⟨i, hi⟩ := hq
      rw [List.get_zipWith] at hi
      rw [← hi, Nat.xor_self]
  · rw [if_neg hlen]
    simp only [Bool.false_eq_true, false_iff]
    intro h
    exact hlen (h ▸ rfl)

/-- C8: eq_ct!(a, b) returns true iff a and b have equal length and equal
contents at every index (i.e. are equal as byte sequences); in particular it
is false whenever the lengths differ. -/
theorem eq_ct_correct (a b : List Nat) :
    (eq_ct a b = true ↔ a = b) ∧ (a.length ≠ b.length → eq_ct a b = false) := by
  refine ⟨eq_ct_iff_eq a b, fun hne => ?_⟩
  unfold eq_ct
  rw [if_neg hne]

/-- Witness for C8 at concrete inputs. -/
theorem eq_ct_correct_witness :
    (eq_ct [1, 2] [1, 2] = true ↔ ([1, 2] : List Nat) = [1, 2]) ∧
    (([1] : List Nat).length ≠ ([] : List Nat).length → eq_ct [1] [] = false) :=
  ⟨(eq_ct_correct [1, 2] [1, 2]).1, (eq_ct_correct [1] []).2⟩

/-- C9: the branch-free primitives eq!(a, b) and gt!(a, b) return 1 exactly
when a = b resp. a > b, and 0 otherwise, for all u32 operands. -/
theorem eq_gt_correct (a b : Nat) (ha : a < 2^32) (hb : b < 2^32) :
    eq32 a b = (if a = b then 1 else 0) ∧ gt32 a b = (if b < a then 1 else 0) :=
  ⟨eq32_spec a b ha hb, gt32_spec a b ha hb⟩

/-- Witness for C9 at concrete inputs. -/
theorem eq_gt_correct_witness :
    (7 : Nat) < 2^32 ∧ (5 : Nat) < 2^32 ∧
    (eq32 7 5 = (if (7:Nat) = 5 then 1 else 0) ∧
      gt32 7 5 = (if (5:Nat) < 7 then 1 else 0)) :=
  ⟨by norm_num, by norm_num, eq_gt_correct 7 5 (by norm_num) (by norm_num)⟩

/-! ## src/core/chacha20.rs (the same block function is inlined in
src/chacha20_ietf.rs as fn chacha20) -/

/-- ChaCha20 constants. -/
def CONSTANTS : List Nat := [0x61707865, 0x3320646e, 0x79622d32, 0x6b206574]

/-- Macro quarterround! from chacha20_rounds, acting on state indices a b c d.
The or! of the two shifted values is the 32-bit rotation. -/
def quarterround (st : List Nat) (a b c d : Nat) : List Nat :=
  let st := st.set a (add32 (st.getD a 0) (st.getD b 0))
  let st := st.set d ((st.getD d 0) ^^^ (st.getD a 0))
  let st := st.set d (shl32 (st.getD d 0) 16 ||| shr32 (st.getD d 0) 16)
  let st := st.set c (add32 (st.getD c 0) (st.getD d 0))
  let st := st.set b ((st.getD b 0) ^^^ (st.getD c 0))
  let st := st.set b (shl32 (st.getD b 0) 12 ||| shr32 (st.getD b 0) 20)
  let st := st.set a (add32 (st.getD a 0) (st.getD b 0))
  let st := st.set d ((st.getD d 0) ^^^ (st.getD a 0))
  let st := st.set d (shl32 (st.getD d 0) 8 ||| shr32 (st.getD d 0) 24)
  let st := st.set c (add32 (st.getD c 0) (st.getD d 0))
  let st := st.set b ((st.getD b 0) ^^^ (st.getD c 0))
  let st := st.set b (shl32 (st.getD b 0) 7 ||| shr32 (st.getD b 0) 25)
  st

/-- One double-round: 8 quarterrounds (columns then diagonals). -/
def chacha20_doubleround (st : List Nat) : List Nat :=
  let st := quarterround st 0 4 8 12
  let st := quarterround st 1 5 9 13
  let st := quarterround st 2 6 10 14
  let st := quarterround st 3 7 11 15
  let st := quarterround st 0 5 10 15
  let st := quarterround st 1 6 11 12
  let st := quarterround st 2 7 8 13
  let st := quarterround st 3 4 9 14
  st

/-- fn chacha20_rounds: ten double-rounds over the state. -/
def chacha20_rounds (st : List Nat) : List Nat :=
  (List.range 10).foldl (fun s _ => chacha20_doubleround s) st

/-- Serialization helper: consecutive write32_le! stores of a word list. -/
def storeWords (ws : List Nat) : List Nat := (ws.map write32LE).flatten

/-- fn chacha20_ietf_block (identical to fn chacha20 in src/chacha20_ietf.rs):
state words are constants, key words, the 32-bit counter n and the nonce
words; after ten double-rounds the initial words are added back word-by-word
and the result is serialized little-endian. -/
def chacha20_ietf_block (key nonce : List Nat) (n : Nat) : List Nat :=
  let key_words := (List.range 8).map (fun i => read32LE key (i * 4))
  let nonce_words := (List.range 3).map (fun i => read32LE nonce (i * 4))
  let state := chacha20_rounds (CONSTANTS ++ key_words ++ [n] ++ nonce_words)
  storeWords
    ((List.range 4).map (fun i => add32 (state.getD i 0) (CONSTANTS.getD i 0)) ++
     (List.range 8).map (fun i => add32 (state.getD (4 + i) 0) (key_words.getD i 0)) ++
     [add32 (state.getD 12 0) n] ++
     (List.range 3).map (fun i => add32 (state.getD (13 + i) 0) (nonce_words.getD i 0)))

/-- Modelled from the spec: the macro split64_le! is used by
src/core/chacha20.rs but its definition is not among the sources.  Per the
spec, state words 12 and 13 hold the 64-bit counter n split little-endian,
i.e. the two u32 casts of n >> 0 and n >> 32. -/
def split64LE (n : Nat) : List Nat := [n % 2^32, shr64 n 32 % 2^32]

/-- Modelled from the spec: the macro combine32_le! is used by
src/core/chacha20.rs but its definition is not among the sources.  It
recombines two consecutive u32 state words little-endian into the u64 they
encode (the inverse of split64_le!). -/
def combine32LE (d : List Nat) : Nat := d.getD 0 0 ||| shl64 (d.getD 1 0) 32

/-- fn chacha20_block (64-bit counter variant): words 12..13 hold the split
counter; the feedforward of words 12..13 recombines them to a u64, adds n
with one 64-bit wrapping addition (add!) and stores the 8 bytes at 48..56. -/
def chacha20_block (key nonce : List Nat) (n : Nat) : List Nat :=
  let key_words := (List.range 8).map (fun i => read32LE key (i * 4))
  let nonce_words := (List.range 2).map (fun i => read32LE nonce (i * 4))
  let state := chacha20_rounds (CONSTANTS ++ key_words ++ split64LE n ++ nonce_words)
  storeWords
    ((List.range 4).map (fun i => add32 (state.getD i 0) (CONSTANTS.getD i 0)) ++
     (List.range 8).map (fun i => add32 (state.getD (4 + i) 0) (key_words.getD i 0))) ++
  write64LE (add64 (combine32LE (state.drop 12)) n) ++
  storeWords ((List.range 2).map (fun i => add32 (state.getD (14 + i) 0) (nonce_words.getD i 0)))

/-- fn hchacha20_hash: like a block but without the feedforward; the output
is words 0..3 concatenated with words 12..15. -/
def hchacha20_hash (key nonce : List Nat) : List Nat :=
  let key_words := (List.range 8).map (fun i => read32LE key (i * 4))
  let input_words := (List.range 4).map (fun i => read32LE nonce (i * 4))
  let state := chacha20_rounds (CONSTANTS ++ key_words ++ input_words)
  storeWords ((List.range 4).map (fun i => state.getD i 0)) ++
  storeWords ((List.range 4).map (fun i => state.getD (12 + i) 0))

/-! ## src/chacha20_ietf.rs: ChaCha20Ietf::xor -/

/-- Constant CHACHA20_MAX (64-bit target): 2^32 * 64. -/
def CHACHA20_MAX : Nat := 4294967296 * 64

/-- Constant CHACHA20_KEY. -/
def CHACHA20_KEY : Nat := 32

/-- Constant CHACHA20_NONCE. -/
def CHACHA20_NONCE : Nat := 12

/-- The while-loop of ChaCha20Ietf::xor as fuel recursion (each iteration
consumes at least one byte, so data.length is enough fuel; the fuel-0 arm is
unreachable under that bound).  After computing a block the counter is
incremented with checked_add: overflow of the u32 counter is a panic,
modelled as none.  The chunk is data[..to_xor] xored with the keystream. -/
def chacha20_xor_loop (key nonce : List Nat) : Nat → Nat → List Nat → Option (List Nat)
  | _, _, [] => some []
  | 0, _, _ => none
  | fuel + 1, n, data =>
    let buf := chacha20_ietf_block key nonce n
    if n + 1 ≤ 2^32 - 1 then
      let to_xor := min data.length buf.length
      match chacha20_xor_loop key nonce fuel (n + 1) (data.drop to_xor) with
      | some rest => some (List.zipWith (fun x y => x ^^^ y) (data.take to_xor) buf ++ rest)
      | none => none
    else none

/-- ChaCha20Ietf::xor: asserts the key and nonce lengths (a failed assert is
a panic, i.e. none), then xors data blockwise with the keystream starting at
counter n. -/
def ChaCha20Ietf.xor (key nonce : List Nat) (n : Nat) (data : List Nat) : Option (List Nat) :=
  if key.length = CHACHA20_KEY ∧ nonce.length = CHACHA20_NONCE then
    chacha20_xor_loop key nonce data.length n data
  else none

/-! ## Lemmas about the keystream xor -/

theorem storeWords_length (ws : List Nat) : (storeWords ws).length = 4 * ws.length := by
  induction ws with
  | nil => rfl
  | cons w ws ih =>
    simp only [storeWords, List.map_cons, List.flatten_cons, List.length_append] at *
    rw [ih]
    simp [write32LE]
    omega

theorem chacha20_ietf_block_length (key nonce : List Nat) (n : Nat) :
    (chacha20_ietf_block key nonce n).length = 64 := by
  unfold chacha20_ietf_block
  rw [storeWords_length]
  simp

/-- Unfolding equation for one loop iteration on a nonempty buffer. -/
theorem chacha20_xor_loop_cons (key nonce : List Nat) (f n d : Nat) (ds : List Nat) :
    chacha20_xor_loop key nonce (f + 1) n (d :: ds) =
      if n + 1 ≤ 2 ^ 32 - 1 then
        match chacha20_xor_loop key nonce f (n + 1)
            ((d :: ds).drop (min (d :: ds).length (chacha20_ietf_block key nonce n).length)) with
        | some rest =>
          some (List.zipWith (fun x y => x ^^^ y)
            ((d :: ds).take (min (d :: ds).length (chacha20_ietf_block key nonce n).length))
            (chacha20_ietf_block key nonce n) ++ rest)
        | none => none
      else none := rfl

theorem chacha20_xor_loop_length (key nonce : List Nat) :
    ∀ fuel n data out, chacha20_xor_loop key nonce fuel n data = some out →
      out.length = data.length := by
  intro fuel
  induction fuel with
  | zero =>
    intro n data out h
    cases data with
    | nil => simp [chacha20_xor_loop] at h; simp [← h]
    | cons d ds => simp [chacha20_xor_loop] at h
  | succ f ih =>
    intro n data out h
    cases data with
    | nil => simp [chacha20_xor_loop] at h; simp [← h]
    | cons d ds =>
      rw [chacha20_xor_loop_cons] at h
      by_cases hn : n + 1 ≤ 2^32 - 1
      · rw [if_pos hn] at h
        set t := min (d :: ds).length (chacha20_ietf_block key nonce n).length with ht
        rcases hrec : chacha20_xor_loop key nonce f (n + 1) ((d :: ds).drop t) with _ | rest
        · rw [hrec] at h
          simp at h
        · rw [hrec] at h
          simp only [Option.some.injEq] at h
          have hlr := ih _ _ _ hrec
          rw [← h]
          have hblock := chacha20_ietf_block_length key nonce n
          simp only [List.length_append, List.length_zipWith, List.length_take,
            List.length_drop, List.length_cons, hblock] at *
          omega
      · rw [if_neg hn] at h
        simp at h

theorem chacha20_xor_loop_some (key nonce : List Nat) :
    ∀ fuel n data, data.length ≤ fuel → n + (data.length + 63) / 64 ≤ 2^32 - 1 →
      ∃ out, chacha20_xor_loop key nonce fuel n data = some out := by
  intro fuel
  induction fuel with
  | zero =>
    intro n data hf _
    cases data with
    | nil => exact ⟨[], rfl⟩
    | cons d ds => simp at hf
  | succ f ih =>
    intro n data hf hb
    cases data with
    | nil => exact ⟨[], rfl⟩
    | cons d ds =>
      have hn : n + 1 ≤ 2^32 - 1 := by
        have h1 : 1 ≤ ((d :: ds).length + 63) / 64 := by
          simp only [List.length_cons]
          omega
        omega
      rw [chacha20_xor_loop_cons, if_pos hn]
      have hblock := chacha20_ietf_block_length key nonce n
      set t := min (d :: ds).length (chacha20_ietf_block key nonce n).length with ht
      have htv : t = min (ds.length + 1) 64 := by
        rw [ht, hblock]
        simp
      obtain ⟨out0, hout⟩ := ih (n + 1) ((d :: ds).drop t)
        (by simp only [List.length_drop, List.length_cons] at *; omega)
        (by simp only [List.length_drop, List.length_cons] at *; omega)
      rw [hout]
      exact ⟨_, rfl⟩

theorem chacha20_xor_loop_none (key nonce : List Nat) :
    ∀ fuel n data, data.length ≤ fuel → data ≠ [] →
      2^32 - 1 < n + (data.length + 63) / 64 →
      chacha20_xor_loop key nonce fuel n data = none := by
  intro fuel
  induction fuel with
  | zero =>
    intro n data hf hne _
    cases data with
    | nil => exact absurd rfl hne
    | cons d ds => simp at hf
  | succ f ih =>
    intro n data hf hne hb
    cases data with
    | nil => exact absurd rfl hne
    | cons d ds =>
      rw [chacha20_xor_loop_cons]
      by_cases hn : n + 1 ≤ 2^32 - 1
      · rw [if_pos hn]
        have hblock := chacha20_ietf_block_length key nonce n
        set t := min (d :: ds).length (chacha20_ietf_block key nonce n).length with ht
        have htv : t = min (ds.length + 1) 64 := by
          rw [ht, hblock]
          simp
        have hlong : 64 < (d :: ds).length := by
          simp only [List.length_cons] at *
          omega
        have hdrop : ((d :: ds).drop t).length = ds.length + 1 - t := by
          simp [List.length_drop]
        have hne2 : (d :: ds).drop t ≠ [] := by
          have hpos : 0 < ((d :: ds).drop t).length := by
            rw [hdrop]
            simp only [List.length_cons] at hlong
            omega
          exact List.ne_nil_of_length_pos hpos
        have hrec := ih (n + 1) ((d :: ds).drop t)
          (by simp only [List.length_drop]; simp only [List.length_cons] at hf ⊢; omega)
          hne2
          (by
            rw [hdrop]
            simp only [List.length_cons] at hb hlong ⊢
            omega)
        rw [hrec]
      · rw [if_neg hn]

/-- Double xor with the same keystream block restores the data. -/
theorem zipWith_xor_invol (l buf : List Nat) (h : l.length ≤ buf.length) :
    List.zipWith (fun x y => x ^^^ y) (List.zipWith (fun x y => x ^^^ y) l buf) buf = l := by
  induction l generalizing buf with
  | nil => simp
  | cons x xs ih =>
    cases buf with
    | nil => simp at h
    | cons b bs =>
      simp only [List.zipWith_cons_cons, List.cons.injEq]
      refine ⟨Nat.xor_cancel_right _ _, ih bs (by simpa using h)⟩

theorem chacha20_xor_loop_invol (key nonce : List Nat) :
    ∀ fuel n data out, data.length ≤ fuel →
      chacha20_xor_loop key nonce fuel n data = some out →
      chacha20_xor_loop key nonce fuel n out = some data := by
  intro fuel
  induction fuel with
  | zero =>
    intro n data out hf h
    cases data with
    | nil =>
      simp [chacha20_xor_loop] at h
      subst h
      rfl
    | cons d ds => simp at hf
  | succ f ih =>
    intro n data out hf h
    cases data with
    | nil =>
      simp [chacha20_xor_loop] at h
      subst h
      rfl
    | cons d ds =>
      have hout_len : out.length = (d :: ds).length :=
        chacha20_xor_loop_length key nonce _ _ _ _ h
      rw [chacha20_xor_loop_cons] at h
      by_cases hn : n + 1 ≤ 2^32 - 1
      · rw [if_pos hn] at h
        have hblock := chacha20_ietf_block_length key nonce n
        set t := min (d :: ds).length (chacha20_ietf_block key nonce n).length with ht
        have htv : t = min (ds.length + 1) 64 := by
          rw [ht, hblock]
          simp
        rcases hrec : chacha20_xor_loop key nonce f (n + 1) ((d :: ds).drop t) with _ | rest
        · rw [hrec] at h
          simp at h
        · rw [hrec] at h
          simp only [Option.some.injEq] at h
          have hchunk_len :
              (List.zipWith (fun x y => x ^^^ y) ((d :: ds).take t)
                (chacha20_ietf_block key nonce n)).length = t := by
            simp only [List.length_zipWith, List.length_take, List.length_cons, hblock]
            omega
          have hrest := ih (n + 1) _ _
            (by simp only [List.length_drop]; simp only [List.length_cons] at hf ⊢; omega) hrec
          rcases out with _ | ⟨o, os⟩
          · simp at hout_len
          have hto : min (o :: os).length (chacha20_ietf_block key nonce n).length = t := by
            rw [hout_len, hblock, ht, hblock]
          have htake2 : (o :: os).take t =
              List.zipWith (fun x y => x ^^^ y) ((d :: ds).take t)
                (chacha20_ietf_block key nonce n) := by
            have hx := List.take_left
              (List.zipWith (fun x y => x ^^^ y) ((d :: ds).take t)
                (chacha20_ietf_block key nonce n)) rest
            rw [hchunk_len] at hx
            rw [h] at hx
            exact hx
          have hdrop2 : (o :: os).drop t = rest := by
            have hx := List.drop_left
              (List.zipWith (fun x y => x ^^^ y) ((d :: ds).take t)
                (chacha20_ietf_block key nonce n)) rest
            rw [hchunk_len] at hx
            rw [h] at hx
            exact hx
          rw [chacha20_xor_loop_cons, if_pos hn, hto, hdrop2, hrest]
          simp only []
          rw [htake2]
          rw [zipWith_xor_invol _ _ (by
            simp only [List.length_take, List.length_cons, hblock]
            omega)]
          rw [List.take_append_drop]
      · rw [if_neg hn] at h
        simp at h

/-- ChaCha20Ietf::xor succeeds (with an output of the input length) whenever
the final counter increment n + ceil(len/64) stays within the u32 range. -/
theorem ChaCha20Ietf.xor_some (key nonce : List Nat) (n : Nat) (data : List Nat)
    (hk : key.length = 32) (hn12 : nonce.length = 12)
    (hb : n + (data.length + 63) / 64 ≤ 2^32 - 1) :
    ∃ out, ChaCha20Ietf.xor key nonce n data = some out ∧ out.length = data.length := by
  unfold ChaCha20Ietf.xor
  rw [if_pos ⟨hk, hn12⟩]
  obtain ⟨out, hout⟩ := chacha20_xor_loop_some key nonce data.length n data le_rfl hb
  exact ⟨out, hout, chacha20_xor_loop_length key nonce _ _ _ _ hout⟩

/-- ChaCha20Ietf::xor panics when the final counter increment overflows. -/
theorem ChaCha20Ietf.xor_none (key nonce : List Nat) (n : Nat) (data : List Nat)
    (hne : data ≠ []) (hb : 2^32 - 1 < n + (data.length + 63) / 64) :
    ChaCha20Ietf.xor key nonce n data = none := by
  unfold ChaCha20Ietf.xor
  by_cases hv : key.length = CHACHA20_KEY ∧ nonce.length = CHACHA20_NONCE
  · rw [if_pos hv]
    exact chacha20_xor_loop_none key nonce data.length n data le_rfl hne hb
  · rw [if_neg hv]

/-- ChaCha20Ietf::xor is an involution for a fixed key, nonce and counter. -/
theorem ChaCha20Ietf.xor_invol (key nonce : List Nat) (n : Nat) (data out : List Nat)
    (h : ChaCha20Ietf.xor key nonce n data = some out) :
    ChaCha20Ietf.xor key nonce n out = some data := by
  unfold ChaCha20Ietf.xor at *
  by_cases hv : key.length = CHACHA20_KEY ∧ nonce.length = CHACHA20_NONCE
  · rw [if_pos hv] at h ⊢
    have hlen : out.length = data.length := chacha20_xor_loop_length key nonce _ _ _ _ h
    rw [hlen]
    exact chacha20_xor_loop_invol key nonce data.length n data out le_rfl h
  · rw [if_neg hv] at h
    exact absurd h (by simp)

/-- C3: the claim says a call with n + ceil(len/64) <= 2^32 completes without
panicking.  The code increments the counter with checked_add after computing
each block, including the last one, so a call that uses the counter value
2^32 - 1 for its final block panics even though no further block is needed:
with n = 2^32 - 1 and one byte of data (n + ceil(1/64) = 2^32), xor panics
(returns none) although the claim and the doc comment of xor promise
completion.  Consequently a single call starting at counter 0 can process at
most (2^32 - 1) * 64 bytes, not the full (2^32) * 64 = CHACHA20_MAX bytes. -/
theorem chacha20_xor_counter_off_by_one :
    ChaCha20Ietf.xor (List.replicate 32 0) (List.replicate 12 0) (2^32 - 1) [0] = none ∧
    (2^32 - 1) + (([0] : List Nat).length + 63) / 64 ≤ 2^32 :=
  ⟨ChaCha20Ietf.xor_none _ _ _ _ (by simp) (by simp), by simp⟩

/-- Spec-side view for C4 (follows the spec text, for comparison with the
code): the feedforward of the counter words is claimed to be two independent
word-wise wrapping 32-bit additions of the post-rounds words 12 and 13 with
the little-endian split of n, with no carry between them; these are the
bytes 48..56 of the block. -/
def chacha20_block_counter_words_spec (key nonce : List Nat) (n : Nat) : List Nat :=
  let key_words := (List.range 8).map (fun i => read32LE key (i * 4))
  let nonce_words := (List.range 2).map (fun i => read32LE nonce (i * 4))
  let state := chacha20_rounds (CONSTANTS ++ key_words ++ split64LE n ++ nonce_words)
  write32LE (add32 (state.getD 12 0) (n % 2^32)) ++
  write32LE (add32 (state.getD 13 0) (shr64 n 32 % 2^32))

set_option maxRecDepth 100000 in
/-- C4: the claim says output bytes 48..56 of chacha20_block are the two
independent 32-bit sums of words 12 and 13 with the split counter, with no
carry from the word-12 addition into word 13.  The code instead recombines
the two words into a u64 and adds n with a single 64-bit wrapping addition
(write64_le!(add!(combine32_le!(&state[12..]), n))), so the carry does
propagate: at key = 0^32, nonce = 0^8, n = 2^32 - 1 the sum of word 12 and
the low counter half overflows 2^32 and bytes 52..56 differ from the
word-wise prediction. -/
theorem chacha20_block_counter_carry :
    ((chacha20_block (List.replicate 32 0) (List.replicate 8 0) (2^32 - 1)).drop 48).take 8 ≠
      chacha20_block_counter_words_spec (List.replicate 32 0) (List.replicate 8 0) (2^32 - 1) := by
  decide

/-! ## src/core/poly1305.rs (the same functions are inlined in
src/poly1305.rs) -/

/-- The five-limb Poly1305 accumulator a (radix 2^26 in u32 words). -/
structure PolyA where
  a0 : Nat
  a1 : Nat
  a2 : Nat
  a3 : Nat
  a4 : Nat
deriving DecidableEq

/-- The key-derived Poly1305 state: clamped r limbs, the s words and the
multiplier table u (u[i] = 5 * r[i], u[0] = 0). -/
structure PolyK where
  r0 : Nat
  r1 : Nat
  r2 : Nat
  r3 : Nat
  r4 : Nat
  s0 : Nat
  s1 : Nat
  s2 : Nat
  s3 : Nat
  u0 : Nat
  u1 : Nat
  u2 : Nat
  u3 : Nat
  u4 : Nat
deriving DecidableEq

/-- fn poly1305_init: load and clamp r, load s, precompute u. -/
def poly1305_init (key : List Nat) : PolyK :=
  let r0 := shr32 (read32LE key 0) 0 &&& 0x03FFFFFF
  let r1 := shr32 (read32LE key 3) 2 &&& 0x03FFFF03
  let r2 := shr32 (read32LE key 6) 4 &&& 0x03FFC0FF
  let r3 := shr32 (read32LE key 9) 6 &&& 0x03F03FFF
  let r4 := shr32 (read32LE key 12) 8 &&& 0x000FFFFF
  { r0 := r0, r1 := r1, r2 := r2, r3 := r3, r4 := r4,
    s0 := read32LE key 16, s1 := read32LE key 20,
    s2 := read32LE key 24, s3 := read32LE key 28,
    u0 := 0, u1 := mul32 r1 5, u2 := mul32 r2 5, u3 := mul32 r3 5, u4 := mul32 r4 5 }

/-- Message decode-and-add of one prepared 16-byte block buf into the
accumulator; high_bit is 0x01000000 for a full (or non-final short) block
and 0x00000000 for a final short block (the match on buf_len < 16 &&
is_last in poly1305_update). -/
def poly1305_msg_add (a : PolyA) (buf : List Nat) (high_bit : Nat) : PolyA :=
  { a0 := add32 a.a0 (shr32 (read32LE buf 0) 0 &&& 0x03FFFFFF),
    a1 := add32 a.a1 (shr32 (read32LE buf 3) 2 &&& 0x03FFFFFF),
    a2 := add32 a.a2 (shr32 (read32LE buf 6) 4 &&& 0x03FFFFFF),
    a3 := add32 a.a3 (shr32 (read32LE buf 9) 6 &&& 0x03FFFFFF),
    a4 := add32 a.a4 (shr32 (read32LE buf 12) 8 ||| high_bit) }

/-- The multiplication a * r mod (2^130 - 5) of one poly1305_update
iteration: schoolbook cross products in u64 (macro m!), carry propagation
into 26-bit limbs, the 5 * carry feedback into limb 0 and one more carry
into limb 1. -/
def poly1305_mulround (k : PolyK) (a : PolyA) : PolyA :=
  let w0 := add64 (add64 (add64 (add64 (mul64 a.a0 k.r0) (mul64 a.a1 k.u4))
    (mul64 a.a2 k.u3)) (mul64 a.a3 k.u2)) (mul64 a.a4 k.u1)
  let w1 := add64 (add64 (add64 (add64 (mul64 a.a0 k.r1) (mul64 a.a1 k.r0))
    (mul64 a.a2 k.u4)) (mul64 a.a3 k.u3)) (mul64 a.a4 k.u2)
  let w2 := add64 (add64 (add64 (add64 (mul64 a.a0 k.r2) (mul64 a.a1 k.r1))
    (mul64 a.a2 k.r0)) (mul64 a.a3 k.u4)) (mul64 a.a4 k.u3)
  let w3 := add64 (add64 (add64 (add64 (mul64 a.a0 k.r3) (mul64 a.a1 k.r2))
    (mul64 a.a2 k.r1)) (mul64 a.a3 k.r0)) (mul64 a.a4 k.u4)
  let w4 := add64 (add64 (add64 (add64 (mul64 a.a0 k.r4) (mul64 a.a1 k.r3))
    (mul64 a.a2 k.r2)) (mul64 a.a3 k.r1)) (mul64 a.a4 k.r0)
  let c0 := shr64 w0 26
  let b0 := (w0 % 2^32) &&& 0x3FFFFFF
  let w1 := add64 w1 c0
  let c1 := shr64 w1 26
  let b1 := (w1 % 2^32) &&& 0x3FFFFFF
  let w2 := add64 w2 c1
  let c2 := shr64 w2 26
  let b2 := (w2 % 2^32) &&& 0x3FFFFFF
  let w3 := add64 w3 c2
  let c3 := shr64 w3 26
  let b3 := (w3 % 2^32) &&& 0x3FFFFFF
  let w4 := add64 w4 c3
  let c4 := shr64 w4 26
  let b4 := (w4 % 2^32) &&& 0x3FFFFFF
  let b0 := add32 b0 (mul32 (c4 % 2^32) 5)
  let b1 := add32 b1 (shr32 b0 26)
  let b0 := b0 &&& 0x3FFFFFF
  { a0 := b0, a1 := b1, a2 := b2, a3 := b3, a4 := b4 }

/-- The while-loop of fn poly1305_update as fuel recursion (each iteration
consumes at least one byte, so data.length is enough fuel).  The prepared
buffer buf is the next up-to-16 data bytes; a short block is zero padded
and, if is_last, gets a 0x01 byte appended right after the data. -/
def poly1305_update_loop (k : PolyK) : Nat → PolyA → List Nat → Bool → PolyA
  | _, a, [], _ => a
  | 0, a, _, _ => a
  | fuel + 1, a, data, is_last =>
    let buf_len := min data.length 16
    let buf :=
      if buf_len < 16 then
        data.take buf_len ++ (if is_last then [1] else [0]) ++ List.replicate (15 - buf_len) 0
      else data.take buf_len
    let high_bit := if buf_len < 16 ∧ is_last = true then 0x00000000 else 0x01000000
    let a := poly1305_mulround k (poly1305_msg_add a buf high_bit)
    poly1305_update_loop k fuel a (data.drop buf_len) is_last

/-- fn poly1305_update. -/
def poly1305_update (k : PolyK) (a : PolyA) (data : List Nat) (is_last : Bool) : PolyA :=
  poly1305_update_loop k data.length a data is_last

/-- First block of fn poly1305_finish ("Finalize modular reduction"): the
final carry chain limbs 1 -> 2 -> 3 -> 4 -> (times 5 into) 0 -> 1. -/
def poly1305_finish_carry (a : PolyA) : PolyA :=
  let c := shr32 a.a1 26
  let a1 := a.a1 &&& 0x3ffffff
  let a2 := add32 a.a2 c
  let c := shr32 a2 26
  let a2 := a2 &&& 0x3ffffff
  let a3 := add32 a.a3 c
  let c := shr32 a3 26
  let a3 := a3 &&& 0x3ffffff
  let a4 := add32 a.a4 c
  let c := shr32 a4 26
  let a4 := a4 &&& 0x3ffffff
  let a0 := add32 a.a0 (mul32 c 5)
  let c := shr32 a0 26
  let a0 := a0 &&& 0x3ffffff
  let a1 := add32 a1 c
  { a0 := a0, a1 := a1, a2 := a2, a3 := a3, a4 := a4 }

/-- Second block of fn poly1305_finish ("Reduce again if our value is in
(2^130-5, 2^130]"): the constant-time conditional subtraction of 2^130 - 5
via the gt!/eq! mux and the masked t = a + 5 carry loop. -/
def poly1305_finish_select (a : PolyA) : PolyA :=
  let mux := gt32 a.a0 0x03FFFFFA
  let mux := mux &&& eq32 a.a1 0x03FFFFFF
  let mux := mux &&& eq32 a.a2 0x03FFFFFF
  let mux := mux &&& eq32 a.a3 0x03FFFFFF
  let mux := mux &&& eq32 a.a4 0x03FFFFFF
  let c := 5
  let t0 := add32 a.a0 c
  let c := shr32 t0 26
  let t0 := t0 &&& 0x03FFFFFF
  let a0 := mux_bool mux t0 a.a0
  let t1 := add32 a.a1 c
  let c := shr32 t1 26
  let t1 := t1 &&& 0x03FFFFFF
  let a1 := mux_bool mux t1 a.a1
  let t2 := add32 a.a2 c
  let c := shr32 t2 26
  let t2 := t2 &&& 0x03FFFFFF
  let a2 := mux_bool mux t2 a.a2
  let t3 := add32 a.a3 c
  let c := shr32 t3 26
  let t3 := t3 &&& 0x03FFFFFF
  let a3 := mux_bool mux t3 a.a3
  let t4 := add32 a.a4 c
  let t4 := t4 &&& 0x03FFFFFF
  let a4 := mux_bool mux t4 a.a4
  { a0 := a0, a1 := a1, a2 := a2, a3 := a3, a4 := a4 }

/-- Third block of fn poly1305_finish ("Convert the accumulator back to
32bit words and add the second half of key modulo 2^128"): the four-word
bridging chain, each word written little-endian into the tag. -/
def poly1305_finish_serialize (a : PolyA) (k : PolyK) : List Nat :=
  let word := add64 (add64 a.a0 (shl64 a.a1 26)) k.s0
  let tag := write32LE (word % 2^32)
  let word := add64 (add64 (shr64 word 32) (shl64 a.a2 20)) k.s1
  let tag := tag ++ write32LE (word % 2^32)
  let word := add64 (add64 (shr64 word 32) (shl64 a.a3 14)) k.s2
  let tag := tag ++ write32LE (word % 2^32)
  let word := add32 (add32 (shr64 word 32 % 2^32) (shl32 a.a4 8)) k.s3
  tag ++ write32LE (word % 2^32)

/-- fn poly1305_finish: final carry chain, constant-time conditional
subtraction of 2^130 - 5, and serialization of (a + s) mod 2^128; returns
the final accumulator together with the 16 tag bytes it writes. -/
def poly1305_finish (a : PolyA) (k : PolyK) : PolyA × List Nat :=
  let b := poly1305_finish_select (poly1305_finish_carry a)
  (b, poly1305_finish_serialize b k)

/-! ## src/poly1305.rs: the Poly1305 facade -/

/-- Constant POLY1305_KEY. -/
def POLY1305_KEY : Nat := 32

/-- Constant POLY1305_TAG. -/
def POLY1305_TAG : Nat := 16

/-- The error type of the library (src/lib.rs). -/
inductive ChachaPolyError where
  | InvalidData : ChachaPolyError
  | ApiMisuse : String → ChachaPolyError
deriving DecidableEq

/-- Poly1305::chachapoly_auth: init, three updates (ad, data, foot with
is_last on the footer only) and finish; returns the 16 tag bytes. -/
def Poly1305.chachapoly_auth (ad data foot key : List Nat) : List Nat :=
  let k := poly1305_init key
  let a : PolyA := ⟨0, 0, 0, 0, 0⟩
  let a := poly1305_update k a ad false
  let a := poly1305_update k a data false
  let a := poly1305_update k a foot true
  (poly1305_finish a k).2

/-- Poly1305::auth (the Mac impl): vfy_auth! checks the key length and that
the buffer holds at least a tag, then one-shot authenticates data with
is_last = true, writing the tag into the first 16 bytes of buf. -/
def Poly1305.auth (buf data key : List Nat) : Except ChachaPolyError (List Nat × Nat) :=
  if key.length ≠ POLY1305_KEY then .error (.ApiMisuse "Invalid key length")
  else if buf.length < POLY1305_TAG then .error (.ApiMisuse "Buffer is too small")
  else
    let k := poly1305_init key
    let a := poly1305_update k ⟨0, 0, 0, 0, 0⟩ data true
    .ok ((poly1305_finish a k).2 ++ buf.drop POLY1305_TAG, POLY1305_TAG)

set_option maxRecDepth 100000 in
/-- C7: the RFC 8439 Poly1305 one-shot MAC test vector: Poly1305::auth on
the 34-byte ASCII message "Cryptographic Forum Research Group" under the
RFC key returns Ok(16) and writes the RFC tag into the first 16 bytes of
the (here exactly 16 byte) output buffer. -/
theorem poly1305_rfc8439_vector :
    Poly1305.auth (List.replicate 16 0)
      [0x43, 0x72, 0x79, 0x70, 0x74, 0x6f, 0x67, 0x72, 0x61, 0x70, 0x68, 0x69, 0x63, 0x20,
       0x46, 0x6f, 0x72, 0x75, 0x6d, 0x20, 0x52, 0x65, 0x73, 0x65, 0x61, 0x72, 0x63, 0x68,
       0x20, 0x47, 0x72, 0x6f, 0x75, 0x70]
      [0x85, 0xd6, 0xbe, 0x78, 0x57, 0x55, 0x6d, 0x33, 0x7f, 0x44, 0x52, 0xfe, 0x42, 0xd5,
       0x06, 0xa8, 0x01, 0x03, 0x80, 0x8a, 0xfb, 0x0d, 0xb2, 0xfd, 0x4a, 0xbf, 0xf6, 0xaf,
       0x41, 0x49, 0xf5, 0x1b] =
    .ok ([0xa8, 0x06, 0x1d, 0xc1, 0x30, 0x51, 0x36, 0xc6, 0xc2, 0x2b, 0x8b, 0xaf, 0x0c,
      0x01, 0x27, 0xa9], 16) := by
  rfl

/-! ## Poly1305 accumulator invariant (for C6) -/

theorem and_mask26 (x : Nat) : x &&& 0x3FFFFFF = x % 2^26 := by
  have h := Nat.and_pow_two_sub_one_eq_mod x 26
  norm_num at h
  norm_num
  exact h

theorem shr64_eq (x k : Nat) (h : k < 64) : shr64 x k = x / 2^k := by
  unfold shr64
  rw [Nat.mod_eq_of_lt h, Nat.shiftRight_eq_div_pow]

theorem shr32_eq (x k : Nat) (h : k < 32) : shr32 x k = x / 2^k := by
  unfold shr32
  rw [Nat.mod_eq_of_lt h, Nat.shiftRight_eq_div_pow]

theorem shl64_eq (x k : Nat) (h : k < 64) : shl64 x k = x * 2^k % 2^64 := by
  unfold shl64
  rw [Nat.mod_eq_of_lt h, Nat.shiftLeft_eq]

theorem shl32_eq (x k : Nat) (h : k < 32) : shl32 x k = x * 2^k % 2^32 := by
  unfold shl32
  rw [Nat.mod_eq_of_lt h, Nat.shiftLeft_eq]

/-- The invariant maintained by poly1305_update on the accumulator limbs:
limbs 0 and 2..4 stay below 2^26, limb 1 keeps a little carry slack. -/
def PolyInv (a : PolyA) : Prop :=
  a.a0 < 2^26 ∧ a.a1 < 2^26 + 64 ∧ a.a2 < 2^26 ∧ a.a3 < 2^26 ∧ a.a4 < 2^26

/-- Any output of the multiplication round satisfies the limb invariant:
limbs 0 and 2..4 are masked to 26 bits, and the carry folded into limb 1 is
the 26-bit shift of a u32 value, hence at most 63. -/
theorem limb_step_bound (x y : Nat) : (x % 2^26 + (y % 2^32) / 2^26) % 2^32 < 2^26 + 64 := by
  omega

theorem poly1305_mulround_inv (k : PolyK) (a : PolyA) : PolyInv (poly1305_mulround k a) := by
  have hshr64 : ∀ x, shr64 x 26 = x / 2^26 := fun x => shr64_eq x 26 (by norm_num)
  have hshr32 : ∀ x, shr32 x 26 = x / 2^26 := fun x => shr32_eq x 26 (by norm_num)
  have hmm32 : ∀ x : Nat, x % 2^32 % 2^26 = x % 2^26 :=
    fun x => Nat.mod_mod_of_dvd x (by norm_num)
  unfold poly1305_mulround PolyInv
  simp only [hshr64, hshr32, and_mask26, add64, add32, mul32, hmm32]
  exact ⟨Nat.mod_lt _ (by norm_num), limb_step_bound _ _, Nat.mod_lt _ (by norm_num),
    Nat.mod_lt _ (by norm_num), Nat.mod_lt _ (by norm_num)⟩

theorem poly1305_update_loop_inv (k : PolyK) :
    ∀ fuel a data is_last, PolyInv a →
      PolyInv (poly1305_update_loop k fuel a data is_last) := by
  intro fuel
  induction fuel with
  | zero =>
    intro a data is_last hinv
    cases data with
    | nil => exact hinv
    | cons d ds => exact hinv
  | succ f ih =>
    intro a data is_last hinv
    cases data with
    | nil => exact hinv
    | cons d ds =>
      rw [poly1305_update_loop]
      exact ih _ _ _ (poly1305_mulround_inv _ _)
      simp

theorem poly1305_update_inv (k : PolyK) (a : PolyA) (data : List Nat) (is_last : Bool)
    (hinv : PolyInv a) : PolyInv (poly1305_update k a data is_last) :=
  poly1305_update_loop_inv k _ a data is_last hinv

/-- Accumulator states reachable from the zero accumulator by any sequence
of poly1305_update calls under a fixed key state. -/
inductive PolyReachable (k : PolyK) : PolyA → Prop where
  | init : PolyReachable k ⟨0, 0, 0, 0, 0⟩
  | update : ∀ {a} (data : List Nat) (is_last : Bool), PolyReachable k a →
      PolyReachable k (poly1305_update k a data is_last)

theorem polyReachable_inv (k : PolyK) (a : PolyA) (h : PolyReachable k a) : PolyInv a := by
  induction h with
  | init => exact ⟨by norm_num, by norm_num, by norm_num, by norm_num, by norm_num⟩
  | update data is_last _ ih => exact poly1305_update_inv _ _ _ _ ih

/-- The value represented by the five 26-bit limbs of the accumulator. -/
def accVal (a : PolyA) : Nat :=
  a.a0 + a.a1 * 2^26 + a.a2 * 2^52 + a.a3 * 2^78 + a.a4 * 2^104

/-- The value of the four little-endian s words of the key. -/
def sVal (k : PolyK) : Nat := k.s0 + k.s1 * 2^32 + k.s2 * 2^64 + k.s3 * 2^96

/-- Little-endian value of a byte list. -/
def leBytesVal (l : List Nat) : Nat := l.foldr (fun b acc => b + 2^8 * acc) 0

theorem poly1305_finish_carry_spec (a : PolyA) (inv : PolyInv a) :
    (poly1305_finish_carry a).a0 < 2^26 ∧ (poly1305_finish_carry a).a1 ≤ 2^26 ∧
    (poly1305_finish_carry a).a2 < 2^26 ∧ (poly1305_finish_carry a).a3 < 2^26 ∧
    (poly1305_finish_carry a).a4 < 2^26 ∧
    ((poly1305_finish_carry a).a1 = 2^26 →
      (poly1305_finish_carry a).a2 = 0 ∧ (poly1305_finish_carry a).a3 = 0 ∧
      (poly1305_finish_carry a).a4 = 0) := by
  obtain ⟨h0, h1, h2, h3, h4⟩ := inv
  have hshr32 : ∀ x, shr32 x 26 = x / 2^26 := fun x => shr32_eq x 26 (by norm_num)
  unfold poly1305_finish_carry
  simp only [hshr32, and_mask26, add32, mul32]
  set c1 := a.a1 / 2^26 with hc1
  have hc1b : c1 ≤ 1 := by omega
  set S2 := (a.a2 + c1) % 2^32 with hS2
  have hS2b : S2 = a.a2 + c1 := by
    rw [hS2]
    exact Nat.mod_eq_of_lt (by omega)
  set c2 := S2 / 2^26 with hc2
  have hc2b : c2 ≤ 1 := by omega
  set S3 := (a.a3 + c2) % 2^32 with hS3
  have hS3b : S3 = a.a3 + c2 := by
    rw [hS3]
    exact Nat.mod_eq_of_lt (by omega)
  set c3 := S3 / 2^26 with hc3
  have hc3b : c3 ≤ 1 := by omega
  set S4 := (a.a4 + c3) % 2^32 with hS4
  have hS4b : S4 = a.a4 + c3 := by
    rw [hS4]
    exact Nat.mod_eq_of_lt (by omega)
  set c4 := S4 / 2^26 with hc4
  have hc4b : c4 ≤ 1 := by omega
  have hm5 : c4 * 5 % 2^32 = c4 * 5 := Nat.mod_eq_of_lt (by omega)
  rw [hm5]
  set S0 := (a.a0 + c4 * 5) % 2^32 with hS0
  have hS0b : S0 = a.a0 + c4 * 5 := by
    rw [hS0]
    exact Nat.mod_eq_of_lt (by omega)
  set c5 := S0 / 2^26 with hc5
  have hc5b : c5 ≤ 1 := by omega
  have hA1 : (a.a1 % 2^26 + c5) % 2^32 = a.a1 % 2^26 + c5 := Nat.mod_eq_of_lt (by omega)
  rw [hA1]
  omega

theorem ite_and_bits (c d : Prop) [Decidable c] [Decidable d] :
    ((if c then (1:Nat) else 0) &&& (if d then 1 else 0)) = if c ∧ d then (1:Nat) else 0 := by
  split_ifs <;> simp_all

theorem mux_bool_zero (x y : Nat) : mux_bool 0 x y = y := by
  unfold mux_bool neg32
  simp [Nat.zero_and]

theorem mux_bool_one_masked (x y : Nat) (hy : y < 2^32) :
    mux_bool 1 (x &&& 0x03FFFFFF) y = x &&& 0x03FFFFFF :=
  (mux_bool_spec (x &&& 0x03FFFFFF) y (lt_of_le_of_lt Nat.and_le_right (by norm_num)) hy).1

theorem poly1305_finish_select_spec (b : PolyA)
    (hb0 : b.a0 < 2^26) (hb1 : b.a1 ≤ 2^26) (hb2 : b.a2 < 2^26) (hb3 : b.a3 < 2^26)
    (hb4 : b.a4 < 2^26)
    (hcas : b.a1 = 2^26 → b.a2 = 0 ∧ b.a3 = 0 ∧ b.a4 = 0) :
    accVal (poly1305_finish_select b) < 2^130 - 5 ∧
    (poly1305_finish_select b).a0 < 2^26 ∧ (poly1305_finish_select b).a1 ≤ 2^26 ∧
    (poly1305_finish_select b).a2 < 2^26 ∧ (poly1305_finish_select b).a3 < 2^26 ∧
    (poly1305_finish_select b).a4 < 2^26 := by
  unfold poly1305_finish_select
  simp only []
  rw [gt32_spec b.a0 0x03FFFFFA (by omega) (by norm_num),
    eq32_spec b.a1 0x03FFFFFF (by omega) (by norm_num),
    eq32_spec b.a2 0x03FFFFFF (by omega) (by norm_num),
    eq32_spec b.a3 0x03FFFFFF (by omega) (by norm_num),
    eq32_spec b.a4 0x03FFFFFF (by omega) (by norm_num)]
  rw [ite_and_bits, ite_and_bits, ite_and_bits, ite_and_bits]
  by_cases hall : ((((0x03FFFFFA < b.a0 ∧ b.a1 = 0x03FFFFFF) ∧ b.a2 = 0x03FFFFFF) ∧
      b.a3 = 0x03FFFFFF) ∧ b.a4 = 0x03FFFFFF)
  · rw [if_pos hall]
    rw [mux_bool_one_masked _ b.a0 (by omega), mux_bool_one_masked _ b.a1 (by omega),
      mux_bool_one_masked _ b.a2 (by omega), mux_bool_one_masked _ b.a3 (by omega),
      mux_bool_one_masked _ b.a4 (by omega)]
    have hshr32 : ∀ x, shr32 x 26 = x / 2^26 := fun x => shr32_eq x 26 (by norm_num)
    unfold accVal
    simp only [hshr32, and_mask26, add32]
    obtain ⟨⟨⟨⟨hg, h1⟩, h2⟩, h3⟩, h4⟩ := hall
    set T0 := (b.a0 + 5) % 2^32 with hT0
    have hT0b : T0 = b.a0 + 5 := by
      rw [hT0]
      exact Nat.mod_eq_of_lt (by omega)
    set d1 := T0 / 2^26 with hd1
    have hd1b : d1 = 1 := by omega
    set T1 := (b.a1 + d1) % 2^32 with hT1
    have hT1b : T1 = b.a1 + d1 := by
      rw [hT1]
      exact Nat.mod_eq_of_lt (by omega)
    set d2 := T1 / 2^26 with hd2
    have hd2b : d2 = 1 := by omega
    set T2 := (b.a2 + d2) % 2^32 with hT2
    have hT2b : T2 = b.a2 + d2 := by
      rw [hT2]
      exact Nat.mod_eq_of_lt (by omega)
    set d3 := T2 / 2^26 with hd3
    have hd3b : d3 = 1 := by omega
    set T3 := (b.a3 + d3) % 2^32 with hT3
    have hT3b : T3 = b.a3 + d3 := by
      rw [hT3]
      exact Nat.mod_eq_of_lt (by omega)
    set d4 := T3 / 2^26 with hd4
    have hd4b : d4 = 1 := by omega
    set T4 := (b.a4 + d4) % 2^32 with hT4
    have hT4b : T4 = b.a4 + d4 := by
      rw [hT4]
      exact Nat.mod_eq_of_lt (by omega)
    omega
  · rw [if_neg hall]
    simp only [mux_bool_zero]
    unfold accVal
    dsimp only
    refine ⟨?_, hb0, hb1, hb2, hb3, hb4⟩
    by_cases h1 : b.a1 = 2^26
    · obtain ⟨hz2, hz3, hz4⟩ := hcas h1
      rw [h1, hz2, hz3, hz4]
      omega
    · have hb1' : b.a1 ≤ 2^26 - 1 := by omega
      by_cases hcase : b.a1 = 0x03FFFFFF ∧ b.a2 = 0x03FFFFFF ∧ b.a3 = 0x03FFFFFF ∧
          b.a4 = 0x03FFFFFF
      · obtain ⟨e1, e2, e3, e4⟩ := hcase
        have hlow : b.a0 ≤ 0x03FFFFFA := by
          by_contra hcon
          exact hall ⟨⟨⟨⟨by omega, e1⟩, e2⟩, e3⟩, e4⟩
        rw [e1, e2, e3, e4]
        omega
      · have : b.a1 ≤ 0x03FFFFFE ∨ b.a2 ≤ 0x03FFFFFE ∨ b.a3 ≤ 0x03FFFFFE ∨
            b.a4 ≤ 0x03FFFFFE := by
          by_contra hcon
          push_neg at hcon
          exact hcase ⟨by omega, by omega, by omega, by omega⟩
        rcases this with h | h | h | h <;> omega

theorem leBytesVal_cons (b : Nat) (l : List Nat) :
    leBytesVal (b :: l) = b + 2^8 * leBytesVal l := rfl

theorem leBytesVal_append (u v : List Nat) :
    leBytesVal (u ++ v) = leBytesVal u + 2^(8 * u.length) * leBytesVal v := by
  induction u with
  | nil => simp [leBytesVal]
  | cons b u ih =>
    rw [List.cons_append, leBytesVal_cons, leBytesVal_cons, ih, List.length_cons,
      Nat.mul_succ, pow_add]
    ring

theorem leBytesVal_write32 (x : Nat) : leBytesVal (write32LE x) = x % 2^32 := by
  have h0 := shr32_eq x 0 (by norm_num)
  have h8 := shr32_eq x 8 (by norm_num)
  have h16 := shr32_eq x 16 (by norm_num)
  have h24 := shr32_eq x 24 (by norm_num)
  unfold write32LE leBytesVal
  simp only [List.foldr_cons, List.foldr_nil, h0, h8, h16, h24]
  omega

theorem poly1305_finish_serialize_spec (b : PolyA) (k : PolyK)
    (hb0 : b.a0 < 2^26) (hb1 : b.a1 ≤ 2^26) (hb2 : b.a2 < 2^26) (hb3 : b.a3 < 2^26)
    (hb4 : b.a4 < 2^26)
    (hs0 : k.s0 < 2^32) (hs1 : k.s1 < 2^32) (hs2 : k.s2 < 2^32) (hs3 : k.s3 < 2^32) :
    (poly1305_finish_serialize b k).length = 16 ∧
    leBytesVal (poly1305_finish_serialize b k) = (accVal b + sVal k) % 2^128 := by
  refine ⟨rfl, ?_⟩
  have hshr64 : ∀ x, shr64 x 32 = x / 2^32 := fun x => shr64_eq x 32 (by norm_num)
  have e1 : shl64 b.a1 26 = b.a1 * 2^26 := by
    rw [shl64_eq _ _ (by norm_num)]
    exact Nat.mod_eq_of_lt (by omega)
  have e2 : shl64 b.a2 20 = b.a2 * 2^20 := by
    rw [shl64_eq _ _ (by norm_num)]
    exact Nat.mod_eq_of_lt (by omega)
  have e3 : shl64 b.a3 14 = b.a3 * 2^14 := by
    rw [shl64_eq _ _ (by norm_num)]
    exact Nat.mod_eq_of_lt (by omega)
  have e4 : shl32 b.a4 8 = b.a4 * 2^8 % 2^32 := shl32_eq _ _ (by norm_num)
  unfold poly1305_finish_serialize
  simp only [e1, e2, e3, e4, hshr64, add64, add32]
  rw [leBytesVal_append, leBytesVal_append, leBytesVal_append]
  simp only [List.length_append, write32LE_length, leBytesVal_write32]
  norm_num
  unfold accVal sVal
  omega

/-- C6: for every accumulator state reachable from the zero accumulator by
any sequence of poly1305_update calls under a key state derived by
poly1305_init, poly1305_finish's final carry propagation and constant-time
conditional subtraction leave the accumulator limbs holding a value
strictly below 2^130 - 5, and the 16 tag bytes it writes are the
little-endian serialization of (accumulator + s) mod 2^128. -/
theorem poly1305_finish_reduction (key : List Nat) (a : PolyA)
    (hr : PolyReachable (poly1305_init key) a) :
    accVal (poly1305_finish a (poly1305_init key)).1 < 2^130 - 5 ∧
    (poly1305_finish a (poly1305_init key)).2.length = 16 ∧
    leBytesVal (poly1305_finish a (poly1305_init key)).2 =
      (accVal (poly1305_finish a (poly1305_init key)).1 +
        sVal (poly1305_init key)) % 2^128 := by
  have hinv := polyReachable_inv _ _ hr
  obtain ⟨hc0, hc1, hc2, hc3, hc4, hcas⟩ := poly1305_finish_carry_spec a hinv
  obtain ⟨hacc, hb0, hb1, hb2, hb3, hb4⟩ :=
    poly1305_finish_select_spec (poly1305_finish_carry a) hc0 hc1 hc2 hc3 hc4 hcas
  have hs0 : (poly1305_init key).s0 < 2^32 := read32LE_lt key 16
  have hs1 : (poly1305_init key).s1 < 2^32 := read32LE_lt key 20
  have hs2 : (poly1305_init key).s2 < 2^32 := read32LE_lt key 24
  have hs3 : (poly1305_init key).s3 < 2^32 := read32LE_lt key 28
  obtain ⟨hlen, hval⟩ := poly1305_finish_serialize_spec
    (poly1305_finish_select (poly1305_finish_carry a)) (poly1305_init key)
    hb0 hb1 hb2 hb3 hb4 hs0 hs1 hs2 hs3
  exact ⟨hacc, hlen, hval⟩

theorem poly1305_finish_reduction_witness :
    accVal (poly1305_finish ⟨0, 0, 0, 0, 0⟩ (poly1305_init (List.replicate 32 0))).1 <
      2^130 - 5 ∧
    (poly1305_finish ⟨0, 0, 0, 0, 0⟩ (poly1305_init (List.replicate 32 0))).2.length = 16 ∧
    leBytesVal (poly1305_finish ⟨0, 0, 0, 0, 0⟩ (poly1305_init (List.replicate 32 0))).2 =
      (accVal (poly1305_finish ⟨0, 0, 0, 0, 0⟩ (poly1305_init (List.replicate 32 0))).1 +
        sVal (poly1305_init (List.replicate 32 0))) % 2^128 :=
  poly1305_finish_reduction (List.replicate 32 0) ⟨0, 0, 0, 0, 0⟩ PolyReachable.init

/-! ## src/xchacha20.rs: XChaCha20::xor -/

/-- Constant XCHACHA20_NONCE. -/
def XCHACHA20_NONCE : Nat := 24

theorem chacha20_block_length (key nonce : List Nat) (n : Nat) :
    (chacha20_block key nonce n).length = 64 := by
  unfold chacha20_block
  simp only [List.length_append, storeWords_length, write64LE_length, List.length_map,
    List.length_range]

/-- The while-loop of XChaCha20::xor as fuel recursion over the derived key
and the trailing 8 nonce bytes; the u64 counter is incremented with
checked_add, so overflow of the u64 counter is a panic, modelled as none. -/
def xchacha20_xor_loop (key nonce : List Nat) : Nat → Nat → List Nat → Option (List Nat)
  | _, _, [] => some []
  | 0, _, _ => none
  | fuel + 1, n, data =>
    let buf := chacha20_block key nonce n
    if n + 1 ≤ 2^64 - 1 then
      let to_xor := min data.length buf.length
      match xchacha20_xor_loop key nonce fuel (n + 1) (data.drop to_xor) with
      | some rest => some (List.zipWith (fun x y => x ^^^ y) (data.take to_xor) buf ++ rest)
      | none => none
    else none

/-- XChaCha20::xor: asserts the key and nonce lengths (a failed assert is a
panic, i.e. none), derives the key with hchacha20_hash over the first 16
nonce bytes, then xors data blockwise with the 64-bit-counter keystream over
the trailing 8 nonce bytes. -/
def XChaCha20.xor (key nonce : List Nat) (n : Nat) (data : List Nat) : Option (List Nat) :=
  if key.length = CHACHA20_KEY ∧ nonce.length = XCHACHA20_NONCE then
    xchacha20_xor_loop (hchacha20_hash key (nonce.take 16)) (nonce.drop 16) data.length n data
  else none

/-- Unfolding equation for one XChaCha20 loop iteration on a nonempty buffer. -/
theorem xchacha20_xor_loop_cons (key nonce : List Nat) (f n d : Nat) (ds : List Nat) :
    xchacha20_xor_loop key nonce (f + 1) n (d :: ds) =
      if n + 1 ≤ 2 ^ 64 - 1 then
        match xchacha20_xor_loop key nonce f (n + 1)
            ((d :: ds).drop (min (d :: ds).length (chacha20_block key nonce n).length)) with
        | some rest =>
          some (List.zipWith (fun x y => x ^^^ y)
            ((d :: ds).take (min (d :: ds).length (chacha20_block key nonce n).length))
            (chacha20_block key nonce n) ++ rest)
        | none => none
      else none := rfl

theorem xchacha20_xor_loop_length (key nonce : List Nat) :
    ∀ fuel n data out, xchacha20_xor_loop key nonce fuel n data = some out →
      out.length = data.length := by
  intro fuel
  induction fuel with
  | zero =>
    intro n data out h
    cases data with
    | nil => simp [xchacha20_xor_loop] at h; simp [← h]
    | cons d ds => simp [xchacha20_xor_loop] at h
  | succ f ih =>
    intro n data out h
    cases data with
    | nil => simp [xchacha20_xor_loop] at h; simp [← h]
    | cons d ds =>
      rw [xchacha20_xor_loop_cons] at h
      by_cases hn : n + 1 ≤ 2^64 - 1
      · rw [if_pos hn] at h
        set t := min (d :: ds).length (chacha20_block key nonce n).length with ht
        rcases hrec : xchacha20_xor_loop key nonce f (n + 1) ((d :: ds).drop t) with _ | rest
        · rw [hrec] at h
          simp at h
        · rw [hrec] at h
          simp only [Option.some.injEq] at h
          have hlr := ih _ _ _ hrec
          rw [← h]
          have hblock := chacha20_block_length key nonce n
          simp only [List.length_append, List.length_zipWith, List.length_take,
            List.length_drop, List.length_cons, hblock] at *
          omega
      · rw [if_neg hn] at h
        simp at h

theorem xchacha20_xor_loop_some (key nonce : List Nat) :
    ∀ fuel n data, data.length ≤ fuel → n + (data.length + 63) / 64 ≤ 2^64 - 1 →
      ∃ out, xchacha20_xor_loop key nonce fuel n data = some out := by
  intro fuel
  induction fuel with
  | zero =>
    intro n data hf _
    cases data with
    | nil => exact ⟨[], rfl⟩
    | cons d ds => simp at hf
  | succ f ih =>
    intro n data hf hb
    cases data with
    | nil => exact ⟨[], rfl⟩
    | cons d ds =>
      have hn : n + 1 ≤ 2^64 - 1 := by
        have h1 : 1 ≤ ((d :: ds).length + 63) / 64 := by
          simp only [List.length_cons]
          omega
        omega
      rw [xchacha20_xor_loop_cons, if_pos hn]
      have hblock := chacha20_block_length key nonce n
      set t := min (d :: ds).length (chacha20_block key nonce n).length with ht
      have htv : t = min (ds.length + 1) 64 := by
        rw [ht, hblock]
        simp
      obtain ⟨out0, hout⟩ := ih (n + 1) ((d :: ds).drop t)
        (by simp only [List.length_drop, List.length_cons] at *; omega)
        (by simp only [List.length_drop, List.length_cons] at *; omega)
      rw [hout]
      exact ⟨_, rfl⟩

theorem xchacha20_xor_loop_invol (key nonce : List Nat) :
    ∀ fuel n data out, data.length ≤ fuel →
      xchacha20_xor_loop key nonce fuel n data = some out →
      xchacha20_xor_loop key nonce fuel n out = some data := by
  intro fuel
  induction fuel with
  | zero =>
    intro n data out hf h
    cases data with
    | nil =>
      simp [xchacha20_xor_loop] at h
      subst h
      rfl
    | cons d ds => simp at hf
  | succ f ih =>
    intro n data out hf h
    cases data with
    | nil =>
      simp [xchacha20_xor_loop] at h
      subst h
      rfl
    | cons d ds =>
      have hout_len : out.length = (d :: ds).length :=
        xchacha20_xor_loop_length key nonce _ _ _ _ h
      rw [xchacha20_xor_loop_cons] at h
      by_cases hn : n + 1 ≤ 2^64 - 1
      · rw [if_pos hn] at h
        have hblock := chacha20_block_length key nonce n
        set t := min (d :: ds).length (chacha20_block key nonce n).length with ht
        have htv : t = min (ds.length + 1) 64 := by
          rw [ht, hblock]
          simp
        rcases hrec : xchacha20_xor_loop key nonce f (n + 1) ((d :: ds).drop t) with _ | rest
        · rw [hrec] at h
          simp at h
        · rw [hrec] at h
          simp only [Option.some.injEq] at h
          have hchunk_len :
              (List.zipWith (fun x y => x ^^^ y) ((d :: ds).take t)
                (chacha20_block key nonce n)).length = t := by
            simp only [List.length_zipWith, List.length_take, List.length_cons, hblock]
            omega
          have hrest := ih (n + 1) _ _
            (by simp only [List.length_drop]; simp only [List.length_cons] at hf ⊢; omega) hrec
          rcases out with _ | ⟨o, os⟩
          · simp at hout_len
          have hto : min (o :: os).length (chacha20_block key nonce n).length = t := by
            rw [hout_len, hblock, ht, hblock]
          have htake2 : (o :: os).take t =
              List.zipWith (fun x y => x ^^^ y) ((d :: ds).take t)
                (chacha20_block key nonce n) := by
            have hx := List.take_left
              (List.zipWith (fun x y => x ^^^ y) ((d :: ds).take t)
                (chacha20_block key nonce n)) rest
            rw [hchunk_len] at hx
            rw [h] at hx
            exact hx
          have hdrop2 : (o :: os).drop t = rest := by
            have hx := List.drop_left
              (List.zipWith (fun x y => x ^^^ y) ((d :: ds).take t)
                (chacha20_block key nonce n)) rest
            rw [hchunk_len] at hx
            rw [h] at hx
            exact hx
          rw [xchacha20_xor_loop_cons, if_pos hn, hto, hdrop2, hrest]
          simp only []
          rw [htake2]
          rw [zipWith_xor_invol _ _ (by
            simp only [List.length_take, List.length_cons, hblock]
            omega)]
          rw [List.take_append_drop]
      · rw [if_neg hn] at h
        simp at h

/-- XChaCha20::xor succeeds (with an output of the input length) whenever
the final counter increment n + ceil(len/64) stays within the u64 range. -/
theorem xchacha20_xor_some (key nonce : List Nat) (n : Nat) (data : List Nat)
    (hk : key.length = 32) (hn24 : nonce.length = 24)
    (hb : n + (data.length + 63) / 64 ≤ 2^64 - 1) :
    ∃ out, XChaCha20.xor key nonce n data = some out ∧ out.length = data.length := by
  unfold XChaCha20.xor
  rw [if_pos ⟨hk, hn24⟩]
  obtain ⟨out, hout⟩ := xchacha20_xor_loop_some _ _ data.length n data le_rfl hb
  exact ⟨out, hout, xchacha20_xor_loop_length _ _ _ _ _ _ hout⟩

/-- XChaCha20::xor is an involution for a fixed key, nonce and counter. -/
theorem xchacha20_xor_invol (key nonce : List Nat) (n : Nat) (data out : List Nat)
    (h : XChaCha20.xor key nonce n data = some out) :
    XChaCha20.xor key nonce n out = some data := by
  unfold XChaCha20.xor at *
  by_cases hv : key.length = CHACHA20_KEY ∧ nonce.length = XCHACHA20_NONCE
  · rw [if_pos hv] at h ⊢
    have hlen : out.length = data.length := xchacha20_xor_loop_length _ _ _ _ _ _ h
    rw [hlen]
    exact xchacha20_xor_loop_invol _ _ data.length n data out le_rfl h
  · rw [if_neg hv] at h
    exact absurd h (by simp)

/-! ## src/chachapoly_ietf.rs and src/xchachapoly.rs: the AEAD layer -/

/-- Constant CHACHAPOLY_MAX (64-bit target): (2^32 - 1) * 64. -/
def CHACHAPOLY_MAX : Nat := (4294967296 - 1) * 64

/-- Constant CHACHAPOLY_KEY. -/
def CHACHAPOLY_KEY : Nat := 32

/-- Constant CHACHAPOLY_NONCE. -/
def CHACHAPOLY_NONCE : Nat := 12

/-- Constant CHACHAPOLY_TAG. -/
def CHACHAPOLY_TAG : Nat := 16

/-- Constant XCHACHAPOLY_NONCE. -/
def XCHACHAPOLY_NONCE : Nat := 24

/-- fn chachapoly_seal: encrypts data in place at counter 1, builds the
footer from the ad and data lengths, derives the Poly1305 key by xoring 32
zero bytes at counter 0, and authenticates ad, ciphertext and footer;
returns the ciphertext and the 16 tag bytes (none is a panic inside
ChaCha20Ietf::xor). -/
def chachapoly_seal (data ad key nonce : List Nat) : Option (List Nat × List Nat) :=
  match ChaCha20Ietf.xor key nonce 1 data with
  | none => none
  | some ct =>
    let foot := write64LE ad.length ++ write64LE ct.length
    match ChaCha20Ietf.xor key nonce 0 (List.replicate 32 0) with
    | none => none
    | some pkey => some (ct, Poly1305.chachapoly_auth ad ct foot pkey)

/-- fn chachapoly_open: builds the footer, derives the Poly1305 key at
counter 0, recomputes the tag over ad, data and footer, compares it against
tag with eq_ct! and only then decrypts data in place at counter 1; a
mismatch is Err(InvalidData) with data untouched (none is a panic inside
ChaCha20Ietf::xor). -/
def chachapoly_open (data tag ad key nonce : List Nat) :
    Option (Except ChachaPolyError (List Nat)) :=
  let foot := write64LE ad.length ++ write64LE data.length
  match ChaCha20Ietf.xor key nonce 0 (List.replicate 32 0) with
  | none => none
  | some pkey =>
    let vfy_tag := Poly1305.chachapoly_auth ad data foot pkey
    if eq_ct tag vfy_tag then
      match ChaCha20Ietf.xor key nonce 1 data with
      | none => none
      | some pt => some (.ok pt)
    else some (.error .InvalidData)

/-- Result of one AeadCipher method call on a mutable buffer: the Err or Ok
return value together with the final buffer contents, or a panic. -/
inductive Outcome where
  | panic : Outcome
  | err : ChachaPolyError → List Nat → Outcome
  | ok : List Nat → Nat → Outcome
deriving DecidableEq

/-- ChachaPolyIetf::seal: the vfy_seal! checks in source order, then
split_at_mut(plaintext_len), chachapoly_seal on the data part writing the
tag into the next 16 bytes, and Ok(plaintext_len + 16). -/
def ChachaPolyIetf.seal (buf : List Nat) (plaintext_len : Nat) (ad key nonce : List Nat) :
    Outcome :=
  if key.length ≠ CHACHAPOLY_KEY then .err (.ApiMisuse "Invalid key length") buf
  else if nonce.length ≠ CHACHAPOLY_NONCE then .err (.ApiMisuse "Invalid nonce length") buf
  else if CHACHAPOLY_MAX < plaintext_len then .err (.ApiMisuse "Too much data") buf
  else if buf.length < plaintext_len + CHACHAPOLY_TAG then
    .err (.ApiMisuse "Buffer is too small") buf
  else
    match chachapoly_seal (buf.take plaintext_len) ad key nonce with
    | none => .panic
    | some (ct, tag) =>
      .ok (ct ++ tag ++ buf.drop (plaintext_len + CHACHAPOLY_TAG))
        (plaintext_len + CHACHAPOLY_TAG)

/-- ChachaPolyIetf::open (in place): the vfy_open! checks in source order
(key, nonce, the "Too much data" cap on the ciphertext length, InvalidData
below a tag length, the buffer bound), then split_at_mut(len - 16),
chachapoly_open on the data part against the tag part, and
Ok(ciphertext_len - 16); on Err the buffer is returned unchanged. -/
def ChachaPolyIetf.open' (buf : List Nat) (ciphertext_len : Nat) (ad key nonce : List Nat) :
    Outcome :=
  if key.length ≠ CHACHAPOLY_KEY then .err (.ApiMisuse "Invalid key length") buf
  else if nonce.length ≠ CHACHAPOLY_NONCE then .err (.ApiMisuse "Invalid nonce length") buf
  else if CHACHAPOLY_MAX < ciphertext_len then .err (.ApiMisuse "Too much data") buf
  else if ciphertext_len < CHACHAPOLY_TAG then .err .InvalidData buf
  else if buf.length < ciphertext_len then .err (.ApiMisuse "Buffer is too small") buf
  else
    match chachapoly_open (buf.take (ciphertext_len - CHACHAPOLY_TAG))
        ((buf.drop (ciphertext_len - CHACHAPOLY_TAG)).take CHACHAPOLY_TAG) ad key nonce with
    | none => .panic
    | some (.error e) => .err e buf
    | some (.ok pt) => .ok (pt ++ buf.drop (ciphertext_len - CHACHAPOLY_TAG))
        (ciphertext_len - CHACHAPOLY_TAG)

/-- ChachaPolyIetf::open_to: same vfy_open! checks on the ciphertext
argument, then the ciphertext body is copied into buf BEFORE
chachapoly_open verifies the tag, so on Err(InvalidData) the buffer already
holds the copied ciphertext body. -/
def ChachaPolyIetf.open_to (buf ciphertext ad key nonce : List Nat) : Outcome :=
  if key.length ≠ CHACHAPOLY_KEY then .err (.ApiMisuse "Invalid key length") buf
  else if nonce.length ≠ CHACHAPOLY_NONCE then .err (.ApiMisuse "Invalid nonce length") buf
  else if CHACHAPOLY_MAX < ciphertext.length then .err (.ApiMisuse "Too much data") buf
  else if ciphertext.length < CHACHAPOLY_TAG then .err .InvalidData buf
  else if buf.length < ciphertext.length then .err (.ApiMisuse "Buffer is too small") buf
  else
    let data := ciphertext.take (ciphertext.length - CHACHAPOLY_TAG)
    let tag := (ciphertext.drop (ciphertext.length - CHACHAPOLY_TAG)).take CHACHAPOLY_TAG
    let buf1 := data ++ buf.drop (ciphertext.length - CHACHAPOLY_TAG)
    match chachapoly_open data tag ad key nonce with
    | none => .panic
    | some (.error e) => .err e buf1
    | some (.ok pt) => .ok (pt ++ buf.drop (ciphertext.length - CHACHAPOLY_TAG))
        (ciphertext.length - CHACHAPOLY_TAG)

/-- fn xchachapoly_seal: as chachapoly_seal with XChaCha20::xor. -/
def xchachapoly_seal (data ad key nonce : List Nat) : Option (List Nat × List Nat) :=
  match XChaCha20.xor key nonce 1 data with
  | none => none
  | some ct =>
    let foot := write64LE ad.length ++ write64LE ct.length
    match XChaCha20.xor key nonce 0 (List.replicate 32 0) with
    | none => none
    | some pkey => some (ct, Poly1305.chachapoly_auth ad ct foot pkey)

/-- fn xchachapoly_open: as chachapoly_open with XChaCha20::xor. -/
def xchachapoly_open (data tag ad key nonce : List Nat) :
    Option (Except ChachaPolyError (List Nat)) :=
  let foot := write64LE ad.length ++ write64LE data.length
  match XChaCha20.xor key nonce 0 (List.replicate 32 0) with
  | none => none
  | some pkey =>
    let vfy_tag := Poly1305.chachapoly_auth ad data foot pkey
    if eq_ct tag vfy_tag then
      match XChaCha20.xor key nonce 1 data with
      | none => none
      | some pt => some (.ok pt)
    else some (.error .InvalidData)

/-- XChachaPoly::seal: as ChachaPolyIetf::seal with the 24-byte nonce and
xchachapoly_seal. -/
def XChachaPoly.seal (buf : List Nat) (plaintext_len : Nat) (ad key nonce : List Nat) :
    Outcome :=
  if key.length ≠ CHACHAPOLY_KEY then .err (.ApiMisuse "Invalid key length") buf
  else if nonce.length ≠ XCHACHAPOLY_NONCE then .err (.ApiMisuse "Invalid nonce length") buf
  else if CHACHAPOLY_MAX < plaintext_len then .err (.ApiMisuse "Too much data") buf
  else if buf.length < plaintext_len + CHACHAPOLY_TAG then
    .err (.ApiMisuse "Buffer is too small") buf
  else
    match xchachapoly_seal (buf.take plaintext_len) ad key nonce with
    | none => .panic
    | some (ct, tag) =>
      .ok (ct ++ tag ++ buf.drop (plaintext_len + CHACHAPOLY_TAG))
        (plaintext_len + CHACHAPOLY_TAG)

/-- XChachaPoly::open: as ChachaPolyIetf::open with the 24-byte nonce and
xchachapoly_open. -/
def XChachaPoly.open' (buf : List Nat) (ciphertext_len : Nat) (ad key nonce : List Nat) :
    Outcome :=
  if key.length ≠ CHACHAPOLY_KEY then .err (.ApiMisuse "Invalid key length") buf
  else if nonce.length ≠ XCHACHAPOLY_NONCE then .err (.ApiMisuse "Invalid nonce length") buf
  else if CHACHAPOLY_MAX < ciphertext_len then .err (.ApiMisuse "Too much data") buf
  else if ciphertext_len < CHACHAPOLY_TAG then .err .InvalidData buf
  else if buf.length < ciphertext_len then .err (.ApiMisuse "Buffer is too small") buf
  else
    match xchachapoly_open (buf.take (ciphertext_len - CHACHAPOLY_TAG))
        ((buf.drop (ciphertext_len - CHACHAPOLY_TAG)).take CHACHAPOLY_TAG) ad key nonce with
    | none => .panic
    | some (.error e) => .err e buf
    | some (.ok pt) => .ok (pt ++ buf.drop (ciphertext_len - CHACHAPOLY_TAG))
        (ciphertext_len - CHACHAPOLY_TAG)

/-- XChachaPoly::open_to: as ChachaPolyIetf::open_to with the 24-byte nonce
and xchachapoly_open; the ciphertext body is copied into buf before the tag
is verified. -/
def XChachaPoly.open_to (buf ciphertext ad key nonce : List Nat) : Outcome :=
  if key.length ≠ CHACHAPOLY_KEY then .err (.ApiMisuse "Invalid key length") buf
  else if nonce.length ≠ XCHACHAPOLY_NONCE then .err (.ApiMisuse "Invalid nonce length") buf
  else if CHACHAPOLY_MAX < ciphertext.length then .err (.ApiMisuse "Too much data") buf
  else if ciphertext.length < CHACHAPOLY_TAG then .err .InvalidData buf
  else if buf.length < ciphertext.length then .err (.ApiMisuse "Buffer is too small") buf
  else
    let data := ciphertext.take (ciphertext.length - CHACHAPOLY_TAG)
    let tag := (ciphertext.drop (ciphertext.length - CHACHAPOLY_TAG)).take CHACHAPOLY_TAG
    let buf1 := data ++ buf.drop (ciphertext.length - CHACHAPOLY_TAG)
    match xchachapoly_open data tag ad key nonce with
    | none => .panic
    | some (.error e) => .err e buf1
    | some (.ok pt) => .ok (pt ++ buf.drop (ciphertext.length - CHACHAPOLY_TAG))
        (ciphertext.length - CHACHAPOLY_TAG)

/-- C5 counterexample: an open whose ciphertext length exceeds
DATA_MAX + TAG_LEN = CHACHAPOLY_MAX + 16 (here CHACHAPOLY_MAX + 17) is
rejected by vfy_open's third check with ApiMisuse("Too much data"), not
with the InvalidData error the claim and the spec promise. -/
theorem chachapoly_open_oversize_counterexample :
    ChachaPolyIetf.open' [] (CHACHAPOLY_MAX + 17) [] (List.replicate 32 0)
      (List.replicate 12 0) = .err (.ApiMisuse "Too much data") [] ∧
    CHACHAPOLY_MAX + CHACHAPOLY_TAG < CHACHAPOLY_MAX + 17 ∧
    Outcome.err (.ApiMisuse "Too much data") [] ≠ Outcome.err .InvalidData [] := by
  refine ⟨?_, by norm_num [CHACHAPOLY_TAG], by simp⟩
  unfold ChachaPolyIetf.open'
  rw [if_neg (by simp [CHACHAPOLY_KEY]), if_neg (by simp [CHACHAPOLY_NONCE]),
    if_pos (by omega)]

/-- C5 amended: for every valid 32-byte key and 12-byte nonce, the in-place
open rejects any ciphertext length above CHACHAPOLY_MAX (which it checks
before everything else about the data, so already at lengths in
(CHACHAPOLY_MAX, CHACHAPOLY_MAX + 16] and for any buffer) with the
ApiMisuse("Too much data") error, not with InvalidData. -/
theorem chachapoly_open_oversize_api_misuse (buf : List Nat) (L : Nat)
    (ad key nonce : List Nat)
    (hk : key.length = CHACHAPOLY_KEY) (hn : nonce.length = CHACHAPOLY_NONCE)
    (hL : CHACHAPOLY_MAX < L) :
    ChachaPolyIetf.open' buf L ad key nonce = .err (.ApiMisuse "Too much data") buf := by
  unfold ChachaPolyIetf.open'
  rw [if_neg (by simp [hk]), if_neg (by simp [hn]), if_pos hL]

theorem chachapoly_open_oversize_api_misuse_witness :
    ChachaPolyIetf.open' [3] (CHACHAPOLY_MAX + 1) [] (List.replicate 32 0)
      (List.replicate 12 0) = .err (.ApiMisuse "Too much data") [3] :=
  chachapoly_open_oversize_api_misuse [3] (CHACHAPOLY_MAX + 1) [] _ _
    (by simp [CHACHAPOLY_KEY]) (by simp [CHACHAPOLY_NONCE]) (by omega)

theorem ChaCha20Ietf.xor_length (key nonce : List Nat) (n : Nat) (data out : List Nat)
    (h : ChaCha20Ietf.xor key nonce n data = some out) : out.length = data.length := by
  unfold ChaCha20Ietf.xor at h
  by_cases hv : key.length = CHACHA20_KEY ∧ nonce.length = CHACHA20_NONCE
  · rw [if_pos hv] at h
    exact chacha20_xor_loop_length _ _ _ _ _ _ h
  · rw [if_neg hv] at h
    exact absurd h (by simp)

theorem xchacha20_xor_length (key nonce : List Nat) (n : Nat) (data out : List Nat)
    (h : XChaCha20.xor key nonce n data = some out) : out.length = data.length := by
  unfold XChaCha20.xor at h
  by_cases hv : key.length = CHACHA20_KEY ∧ nonce.length = XCHACHA20_NONCE
  · rw [if_pos hv] at h
    exact xchacha20_xor_loop_length _ _ _ _ _ _ h
  · rw [if_neg hv] at h
    exact absurd h (by simp)

theorem chachapoly_auth_length (ad data foot key : List Nat) :
    (Poly1305.chachapoly_auth ad data foot key).length = 16 := rfl

/-- C10: with key, nonce, buffer and plaintext length fixed and valid, for
any two associated-data inputs ad1 and ad2 the two seal calls either both
panic (the ciphertext computation does not involve the associated data), or
both succeed with the same returned length, the same ciphertext bytes and
the same untouched buffer tail, differing at most in the 16 tag bytes: the
associated data influences only the tag. -/
theorem chachapoly_seal_ad_only_affects_tag (buf : List Nat) (ptLen : Nat)
    (ad1 ad2 key nonce : List Nat)
    (hk : key.length = CHACHAPOLY_KEY) (hn : nonce.length = CHACHAPOLY_NONCE)
    (hcap : ptLen ≤ CHACHAPOLY_MAX) (hbuf : ptLen + CHACHAPOLY_TAG ≤ buf.length) :
    (ChachaPolyIetf.seal buf ptLen ad1 key nonce = .panic ∧
     ChachaPolyIetf.seal buf ptLen ad2 key nonce = .panic) ∨
    ∃ ct tag1 tag2, ct.length = ptLen ∧ tag1.length = 16 ∧ tag2.length = 16 ∧
      ChachaPolyIetf.seal buf ptLen ad1 key nonce =
        .ok (ct ++ tag1 ++ buf.drop (ptLen + CHACHAPOLY_TAG)) (ptLen + CHACHAPOLY_TAG) ∧
      ChachaPolyIetf.seal buf ptLen ad2 key nonce =
        .ok (ct ++ tag2 ++ buf.drop (ptLen + CHACHAPOLY_TAG)) (ptLen + CHACHAPOLY_TAG) := by
  unfold ChachaPolyIetf.seal
  have h1 : ¬(key.length ≠ CHACHAPOLY_KEY) := by simp [hk]
  have h2 : ¬(nonce.length ≠ CHACHAPOLY_NONCE) := by simp [hn]
  have h3 : ¬(CHACHAPOLY_MAX < ptLen) := by omega
  have h4 : ¬(buf.length < ptLen + CHACHAPOLY_TAG) := by omega
  simp only [if_neg h1, if_neg h2, if_neg h3, if_neg h4]
  unfold chachapoly_seal
  rcases hx1 : ChaCha20Ietf.xor key nonce 1 (buf.take ptLen) with _ | ct
  · left
    exact ⟨rfl, rfl⟩
  · obtain ⟨pk, hpk, hpklen⟩ := ChaCha20Ietf.xor_some key nonce 0 (List.replicate 32 0)
      hk hn (by simp)
    rw [hpk]
    right
    have hct : ct.length = ptLen := by
      have h1 := ChaCha20Ietf.xor_length _ _ _ _ _ hx1
      rw [h1, List.length_take]
      omega
    exact ⟨ct, _, _, hct, chachapoly_auth_length _ _ _ _, chachapoly_auth_length _ _ _ _,
      rfl, rfl⟩

theorem chachapoly_seal_ad_only_affects_tag_witness :
    (ChachaPolyIetf.seal (List.replicate 17 0) 1 [] (List.replicate 32 0)
        (List.replicate 12 0) = .panic ∧
     ChachaPolyIetf.seal (List.replicate 17 0) 1 [5] (List.replicate 32 0)
        (List.replicate 12 0) = .panic) ∨
    ∃ ct tag1 tag2, ct.length = 1 ∧ tag1.length = 16 ∧ tag2.length = 16 ∧
      ChachaPolyIetf.seal (List.replicate 17 0) 1 [] (List.replicate 32 0)
          (List.replicate 12 0) =
        .ok (ct ++ tag1 ++ (List.replicate 17 0).drop (1 + CHACHAPOLY_TAG))
          (1 + CHACHAPOLY_TAG) ∧
      ChachaPolyIetf.seal (List.replicate 17 0) 1 [5] (List.replicate 32 0)
          (List.replicate 12 0) =
        .ok (ct ++ tag2 ++ (List.replicate 17 0).drop (1 + CHACHAPOLY_TAG))
          (1 + CHACHAPOLY_TAG) :=
  chachapoly_seal_ad_only_affects_tag (List.replicate 17 0) 1 [] [5] _ _
    (by simp [CHACHAPOLY_KEY]) (by simp [CHACHAPOLY_NONCE])
    (by norm_num [CHACHAPOLY_MAX]) (by simp [CHACHAPOLY_TAG])

set_option maxRecDepth 100000 in
/-- C2 counterexample: open_to copies the ciphertext body into the output
buffer before the tag is verified, so a failing open_to (zero key and
nonce, ciphertext body [7] with an all-zero 16-byte tag, buffer filled with
9s) returns InvalidData with the first byte of the buffer overwritten by
the ciphertext byte 7 - the output buffer is not untouched. -/
theorem chachapoly_open_to_touches_buffer :
    ChachaPolyIetf.open_to (List.replicate 17 9) ([7] ++ List.replicate 16 0) []
      (List.replicate 32 0) (List.replicate 12 0) =
      .err .InvalidData ([7] ++ List.replicate 16 9) ∧
    [7] ++ List.replicate 16 9 ≠ List.replicate 17 9 := by
  refine ⟨by rfl, by decide⟩

/-- C2 amended: when the recomputed tag does not match, the in-place open
of both variants (ChachaPolyIetf and XChachaPoly, buffer holding the
ciphertext) returns InvalidData with the buffer unchanged, while both
open_to variants return InvalidData with the ciphertext body already
copied over the start of the output buffer (the copy happens before
verification). -/
theorem chachapoly_open_bad_tag_buffer (buf ct bufX ctX ad key nonceI nonceX : List Nat)
    (hk : key.length = CHACHAPOLY_KEY)
    (hnI : nonceI.length = CHACHAPOLY_NONCE) (hnX : nonceX.length = XCHACHAPOLY_NONCE)
    (hloI : CHACHAPOLY_TAG ≤ ct.length) (hhiI : ct.length ≤ CHACHAPOLY_MAX)
    (hbufI : ct.length ≤ buf.length)
    (hbadI : chachapoly_open (ct.take (ct.length - CHACHAPOLY_TAG))
        ((ct.drop (ct.length - CHACHAPOLY_TAG)).take CHACHAPOLY_TAG) ad key nonceI =
        some (.error .InvalidData))
    (hloX : CHACHAPOLY_TAG ≤ ctX.length) (hhiX : ctX.length ≤ CHACHAPOLY_MAX)
    (hbufX : ctX.length ≤ bufX.length)
    (hbadX : xchachapoly_open (ctX.take (ctX.length - CHACHAPOLY_TAG))
        ((ctX.drop (ctX.length - CHACHAPOLY_TAG)).take CHACHAPOLY_TAG) ad key nonceX =
        some (.error .InvalidData)) :
    ChachaPolyIetf.open' ct ct.length ad key nonceI = .err .InvalidData ct ∧
    ChachaPolyIetf.open_to buf ct ad key nonceI = .err .InvalidData
      (ct.take (ct.length - CHACHAPOLY_TAG) ++ buf.drop (ct.length - CHACHAPOLY_TAG)) ∧
    XChachaPoly.open' ctX ctX.length ad key nonceX = .err .InvalidData ctX ∧
    XChachaPoly.open_to bufX ctX ad key nonceX = .err .InvalidData
      (ctX.take (ctX.length - CHACHAPOLY_TAG) ++
        bufX.drop (ctX.length - CHACHAPOLY_TAG)) := by
  unfold ChachaPolyIetf.open' ChachaPolyIetf.open_to XChachaPoly.open' XChachaPoly.open_to
  have h1 : ¬(key.length ≠ CHACHAPOLY_KEY) := by simp [hk]
  have h2 : ¬(nonceI.length ≠ CHACHAPOLY_NONCE) := by simp [hnI]
  have h2x : ¬(nonceX.length ≠ XCHACHAPOLY_NONCE) := by simp [hnX]
  have h3 : ¬(CHACHAPOLY_MAX < ct.length) := by omega
  have h4 : ¬(ct.length < CHACHAPOLY_TAG) := by omega
  have h5 : ¬(ct.length < ct.length) := by omega
  have h6 : ¬(buf.length < ct.length) := by omega
  have h3x : ¬(CHACHAPOLY_MAX < ctX.length) := by omega
  have h4x : ¬(ctX.length < CHACHAPOLY_TAG) := by omega
  have h5x : ¬(ctX.length < ctX.length) := by omega
  have h6x : ¬(bufX.length < ctX.length) := by omega
  simp only [if_neg h1, if_neg h2, if_neg h2x, if_neg h3, if_neg h4, if_neg h5,
    if_neg h6, if_neg h3x, if_neg h4x, if_neg h5x, if_neg h6x]
  rw [hbadI, hbadX]
  exact ⟨rfl, rfl, rfl, rfl⟩

set_option maxRecDepth 100000 in
theorem chachapoly_open_bad_tag_buffer_witness :
    ChachaPolyIetf.open' ([7] ++ List.replicate 16 0) ([7] ++ List.replicate 16 0).length
      [] (List.replicate 32 0) (List.replicate 12 0) =
      .err .InvalidData ([7] ++ List.replicate 16 0) ∧
    ChachaPolyIetf.open_to (List.replicate 17 9) ([7] ++ List.replicate 16 0) []
      (List.replicate 32 0) (List.replicate 12 0) =
      .err .InvalidData
        (([7] ++ List.replicate 16 0).take (([7] ++ List.replicate 16 0).length -
            CHACHAPOLY_TAG) ++
          (List.replicate 17 9).drop (([7] ++ List.replicate 16 0).length -
            CHACHAPOLY_TAG)) ∧
    XChachaPoly.open' ([7] ++ List.replicate 16 0) ([7] ++ List.replicate 16 0).length
      [] (List.replicate 32 0) (List.replicate 24 0) =
      .err .InvalidData ([7] ++ List.replicate 16 0) ∧
    XChachaPoly.open_to (List.replicate 17 9) ([7] ++ List.replicate 16 0) []
      (List.replicate 32 0) (List.replicate 24 0) =
      .err .InvalidData
        (([7] ++ List.replicate 16 0).take (([7] ++ List.replicate 16 0).length -
            CHACHAPOLY_TAG) ++
          (List.replicate 17 9).drop (([7] ++ List.replicate 16 0).length -
            CHACHAPOLY_TAG)) :=
  chachapoly_open_bad_tag_buffer (List.replicate 17 9) ([7] ++ List.replicate 16 0)
    (List.replicate 17 9) ([7] ++ List.replicate 16 0) [] _ _ _
    (by decide) (by decide) (by decide) (by decide) (by decide) (by decide) (by rfl)
    (by decide) (by decide) (by decide) (by rfl)


theorem ChachaPolyIetf.seal_panic_of_xor_none (buf : List Nat) (ptLen : Nat)
    (ad key nonce : List Nat)
    (hk : key.length = CHACHAPOLY_KEY) (hn : nonce.length = CHACHAPOLY_NONCE)
    (hcap : ptLen ≤ CHACHAPOLY_MAX) (hbuf : ptLen + CHACHAPOLY_TAG ≤ buf.length)
    (hx : ChaCha20Ietf.xor key nonce 1 (buf.take ptLen) = none) :
    ChachaPolyIetf.seal buf ptLen ad key nonce = .panic := by
  unfold ChachaPolyIetf.seal
  have h1 : ¬(key.length ≠ CHACHAPOLY_KEY) := by simp [hk]
  have h2 : ¬(nonce.length ≠ CHACHAPOLY_NONCE) := by simp [hn]
  have h3 : ¬(CHACHAPOLY_MAX < ptLen) := by omega
  have h4 : ¬(buf.length < ptLen + CHACHAPOLY_TAG) := by omega
  rw [if_neg h1, if_neg h2, if_neg h3, if_neg h4]
  unfold chachapoly_seal
  rw [hx]

/-- C1 counterexample: seal panics on a plaintext at the size cap.  A
plaintext of exactly CHACHAPOLY_MAX = (2^32 - 1) * 64 bytes passes
vfy_seal!, but ChaCha20Ietf::xor starting at counter 1 then increments the
counter past 2^32 - 1 after the last block and panics, so the sealed output
the round-trip claim speaks about does not exist for every in-cap
plaintext. -/
theorem chachapoly_seal_panics_within_cap :
    ChachaPolyIetf.seal (List.replicate (CHACHAPOLY_MAX + 16) 0) CHACHAPOLY_MAX []
      (List.replicate 32 0) (List.replicate 12 0) = .panic := by
  apply ChachaPolyIetf.seal_panic_of_xor_none
  · simp [CHACHAPOLY_KEY]
  · simp [CHACHAPOLY_NONCE]
  · omega
  · rw [List.length_replicate]
    have hT : CHACHAPOLY_TAG = 16 := rfl
    omega
  · rw [List.take_replicate]
    have hmin : min CHACHAPOLY_MAX (CHACHAPOLY_MAX + 16) = CHACHAPOLY_MAX := by omega
    rw [hmin]
    apply ChaCha20Ietf.xor_none
    · apply List.ne_nil_of_length_pos
      rw [List.length_replicate]
      norm_num [CHACHAPOLY_MAX]
    · rw [List.length_replicate]
      norm_num [CHACHAPOLY_MAX]

theorem ChachaPolyIetf.seal_eq (pt ad key nonce ct pk : List Nat)
    (hk : key.length = 32) (hn : nonce.length = 12) (hcap : pt.length ≤ CHACHAPOLY_MAX)
    (hx1 : ChaCha20Ietf.xor key nonce 1 pt = some ct)
    (hpk : ChaCha20Ietf.xor key nonce 0 (List.replicate 32 0) = some pk) :
    ChachaPolyIetf.seal (pt ++ List.replicate 16 0) pt.length ad key nonce =
      .ok (ct ++ Poly1305.chachapoly_auth ad ct
        (write64LE ad.length ++ write64LE ct.length) pk) (pt.length + 16) := by
  have hT : CHACHAPOLY_TAG = 16 := rfl
  have h1 : ¬(key.length ≠ CHACHAPOLY_KEY) := by simp [hk, CHACHAPOLY_KEY]
  have h2 : ¬(nonce.length ≠ CHACHAPOLY_NONCE) := by simp [hn, CHACHAPOLY_NONCE]
  have h3 : ¬(CHACHAPOLY_MAX < pt.length) := by omega
  have h4 : ¬((pt ++ List.replicate 16 0).length < pt.length + CHACHAPOLY_TAG) := by
    rw [List.length_append, List.length_replicate, hT]
    omega
  have hdrop : (pt ++ List.replicate 16 0).drop (pt.length + CHACHAPOLY_TAG) = [] := by
    apply List.drop_eq_nil_of_le
    rw [List.length_append, List.length_replicate, hT]
  have hseal0 : ChachaPolyIetf.seal (pt ++ List.replicate 16 0) pt.length ad key nonce =
      .ok (ct ++ Poly1305.chachapoly_auth ad ct
          (write64LE ad.length ++ write64LE ct.length) pk ++
        (pt ++ List.replicate 16 0).drop (pt.length + CHACHAPOLY_TAG))
        (pt.length + CHACHAPOLY_TAG) := by
    unfold ChachaPolyIetf.seal
    rw [if_neg h1, if_neg h2, if_neg h3, if_neg h4, List.take_left]
    unfold chachapoly_seal
    rw [hx1, hpk]
  rw [hseal0, hdrop, List.append_nil, hT]

theorem chachapoly_open_eq (pt ct ad key nonce pk : List Nat)
    (hx1 : ChaCha20Ietf.xor key nonce 1 pt = some ct)
    (hpk : ChaCha20Ietf.xor key nonce 0 (List.replicate 32 0) = some pk) :
    chachapoly_open ct (Poly1305.chachapoly_auth ad ct
      (write64LE ad.length ++ write64LE ct.length) pk) ad key nonce =
      some (.ok pt) := by
  unfold chachapoly_open
  rw [hpk]
  show (if eq_ct (Poly1305.chachapoly_auth ad ct
          (write64LE ad.length ++ write64LE ct.length) pk)
        (Poly1305.chachapoly_auth ad ct
          (write64LE ad.length ++ write64LE ct.length) pk) = true then
      match ChaCha20Ietf.xor key nonce 1 ct with
      | none => none
      | some q => some (Except.ok q)
    else some (Except.error ChachaPolyError.InvalidData)) = some (Except.ok pt)
  rw [if_pos (eq_ct_self _), ChaCha20Ietf.xor_invol _ _ _ _ _ hx1]

theorem ChachaPolyIetf.open_eq (pt ad key nonce ct pk : List Nat)
    (hk : key.length = 32) (hn : nonce.length = 12)
    (hcap : pt.length + 16 ≤ CHACHAPOLY_MAX) (hct : ct.length = pt.length)
    (hx1 : ChaCha20Ietf.xor key nonce 1 pt = some ct)
    (hpk : ChaCha20Ietf.xor key nonce 0 (List.replicate 32 0) = some pk) :
    ChachaPolyIetf.open' (ct ++ Poly1305.chachapoly_auth ad ct
        (write64LE ad.length ++ write64LE ct.length) pk) (pt.length + 16) ad key nonce =
      .ok (pt ++ Poly1305.chachapoly_auth ad ct
        (write64LE ad.length ++ write64LE ct.length) pk) pt.length := by
  set tag := Poly1305.chachapoly_auth ad ct
    (write64LE ad.length ++ write64LE ct.length) pk with htagdef
  have htag : tag.length = 16 := chachapoly_auth_length _ _ _ _
  have hT : CHACHAPOLY_TAG = 16 := rfl
  have h1 : ¬(key.length ≠ CHACHAPOLY_KEY) := by simp [hk, CHACHAPOLY_KEY]
  have h2 : ¬(nonce.length ≠ CHACHAPOLY_NONCE) := by simp [hn, CHACHAPOLY_NONCE]
  have h3 : ¬(CHACHAPOLY_MAX < pt.length + 16) := by omega
  have h4 : ¬(pt.length + 16 < CHACHAPOLY_TAG) := by rw [hT]; omega
  have h5 : ¬((ct ++ tag).length < pt.length + 16) := by
    rw [List.length_append, hct, htag]
    omega
  have hidx : pt.length + 16 - CHACHAPOLY_TAG = ct.length := by
    rw [hct, hT]
    omega
  have htake16 : tag.take CHACHAPOLY_TAG = tag := by
    apply List.take_of_length_le
    rw [htag, hT]
  unfold ChachaPolyIetf.open'
  rw [if_neg h1, if_neg h2, if_neg h3, if_neg h4, if_neg h5, hidx, List.take_left,
    List.drop_left, htake16, chachapoly_open_eq pt ct ad key nonce pk hx1 hpk, hct]

theorem XChachaPoly.seal_ok (pt ad key nonce ct pk : List Nat)
    (hk : key.length = 32) (hn : nonce.length = 24) (hcap : pt.length ≤ CHACHAPOLY_MAX)
    (hx1 : XChaCha20.xor key nonce 1 pt = some ct)
    (hpk : XChaCha20.xor key nonce 0 (List.replicate 32 0) = some pk) :
    XChachaPoly.seal (pt ++ List.replicate 16 0) pt.length ad key nonce =
      .ok (ct ++ Poly1305.chachapoly_auth ad ct
        (write64LE ad.length ++ write64LE ct.length) pk) (pt.length + 16) := by
  have hT : CHACHAPOLY_TAG = 16 := rfl
  have h1 : ¬(key.length ≠ CHACHAPOLY_KEY) := by simp [hk, CHACHAPOLY_KEY]
  have h2 : ¬(nonce.length ≠ XCHACHAPOLY_NONCE) := by simp [hn, XCHACHAPOLY_NONCE]
  have h3 : ¬(CHACHAPOLY_MAX < pt.length) := by omega
  have h4 : ¬((pt ++ List.replicate 16 0).length < pt.length + CHACHAPOLY_TAG) := by
    rw [List.length_append, List.length_replicate, hT]
    omega
  have hdrop : (pt ++ List.replicate 16 0).drop (pt.length + CHACHAPOLY_TAG) = [] := by
    apply List.drop_eq_nil_of_le
    rw [List.length_append, List.length_replicate, hT]
  have hseal0 : XChachaPoly.seal (pt ++ List.replicate 16 0) pt.length ad key nonce =
      .ok (ct ++ Poly1305.chachapoly_auth ad ct
          (write64LE ad.length ++ write64LE ct.length) pk ++
        (pt ++ List.replicate 16 0).drop (pt.length + CHACHAPOLY_TAG))
        (pt.length + CHACHAPOLY_TAG) := by
    unfold XChachaPoly.seal
    rw [if_neg h1, if_neg h2, if_neg h3, if_neg h4, List.take_left]
    unfold xchachapoly_seal
    rw [hx1, hpk]
  rw [hseal0, hdrop, List.append_nil, hT]

theorem xchachapoly_open_eq (pt ct ad key nonce pk : List Nat)
    (hx1 : XChaCha20.xor key nonce 1 pt = some ct)
    (hpk : XChaCha20.xor key nonce 0 (List.replicate 32 0) = some pk) :
    xchachapoly_open ct (Poly1305.chachapoly_auth ad ct
      (write64LE ad.length ++ write64LE ct.length) pk) ad key nonce =
      some (.ok pt) := by
  unfold xchachapoly_open
  rw [hpk]
  show (if eq_ct (Poly1305.chachapoly_auth ad ct
          (write64LE ad.length ++ write64LE ct.length) pk)
        (Poly1305.chachapoly_auth ad ct
          (write64LE ad.length ++ write64LE ct.length) pk) = true then
      match XChaCha20.xor key nonce 1 ct with
      | none => none
      | some q => some (Except.ok q)
    else some (Except.error ChachaPolyError.InvalidData)) = some (Except.ok pt)
  rw [if_pos (eq_ct_self _), xchacha20_xor_invol _ _ _ _ _ hx1]

theorem XChachaPoly.open_ok (pt ad key nonce ct pk : List Nat)
    (hk : key.length = 32) (hn : nonce.length = 24)
    (hcap : pt.length + 16 ≤ CHACHAPOLY_MAX) (hct : ct.length = pt.length)
    (hx1 : XChaCha20.xor key nonce 1 pt = some ct)
    (hpk : XChaCha20.xor key nonce 0 (List.replicate 32 0) = some pk) :
    XChachaPoly.open' (ct ++ Poly1305.chachapoly_auth ad ct
        (write64LE ad.length ++ write64LE ct.length) pk) (pt.length + 16) ad key nonce =
      .ok (pt ++ Poly1305.chachapoly_auth ad ct
        (write64LE ad.length ++ write64LE ct.length) pk) pt.length := by
  set tag := Poly1305.chachapoly_auth ad ct
    (write64LE ad.length ++ write64LE ct.length) pk with htagdef
  have htag : tag.length = 16 := chachapoly_auth_length _ _ _ _
  have hT : CHACHAPOLY_TAG = 16 := rfl
  have h1 : ¬(key.length ≠ CHACHAPOLY_KEY) := by simp [hk, CHACHAPOLY_KEY]
  have h2 : ¬(nonce.length ≠ XCHACHAPOLY_NONCE) := by simp [hn, XCHACHAPOLY_NONCE]
  have h3 : ¬(CHACHAPOLY_MAX < pt.length + 16) := by omega
  have h4 : ¬(pt.length + 16 < CHACHAPOLY_TAG) := by rw [hT]; omega
  have h5 : ¬((ct ++ tag).length < pt.length + 16) := by
    rw [List.length_append, hct, htag]
    omega
  have hidx : pt.length + 16 - CHACHAPOLY_TAG = ct.length := by
    rw [hct, hT]
    omega
  have htake16 : tag.take CHACHAPOLY_TAG = tag := by
    apply List.take_of_length_le
    rw [htag, hT]
  unfold XChachaPoly.open'
  rw [if_neg h1, if_neg h2, if_neg h3, if_neg h4, if_neg h5, hidx, List.take_left,
    List.drop_left, htake16, xchachapoly_open_eq pt ct ad key nonce pk hx1 hpk, hct]

/-- C1 amended: the AEAD round-trip holds below the panic boundary of the
underlying keystream counter.  For the IETF variant the plaintext must stay
at or below (2^32 - 2) * 64 bytes (one block less than the CHACHAPOLY_MAX
cap, because ChaCha20Ietf::xor post-increments the counter after the last
block); for the X variant any plaintext with |pt| + 16 <= CHACHAPOLY_MAX
round-trips.  Sealing pt (into a buffer with 16 spare tag bytes) yields a
ciphertext of the plaintext length plus a 16-byte tag, and the in-place
open of ct ++ tag returns Ok with exactly the original plaintext pt in the
buffer. -/
theorem chachapoly_roundtrip (ptI ptX ad key nonceI nonceX : List Nat)
    (hk : key.length = 32) (hnI : nonceI.length = 12) (hnX : nonceX.length = 24)
    (hptI : ptI.length ≤ (2^32 - 2) * 64) (hptX : ptX.length + 16 ≤ CHACHAPOLY_MAX) :
    (∃ ct tag, ct.length = ptI.length ∧ tag.length = 16 ∧
      ChachaPolyIetf.seal (ptI ++ List.replicate 16 0) ptI.length ad key nonceI =
        .ok (ct ++ tag) (ptI.length + 16) ∧
      ChachaPolyIetf.open' (ct ++ tag) (ptI.length + 16) ad key nonceI =
        .ok (ptI ++ tag) ptI.length) ∧
    (∃ ct tag, ct.length = ptX.length ∧ tag.length = 16 ∧
      XChachaPoly.seal (ptX ++ List.replicate 16 0) ptX.length ad key nonceX =
        .ok (ct ++ tag) (ptX.length + 16) ∧
      XChachaPoly.open' (ct ++ tag) (ptX.length + 16) ad key nonceX =
        .ok (ptX ++ tag) ptX.length) := by
  have hM : CHACHAPOLY_MAX = (4294967296 - 1) * 64 := rfl
  constructor
  · obtain ⟨ct, hx1, hctlen⟩ := ChaCha20Ietf.xor_some key nonceI 1 ptI hk hnI (by omega)
    obtain ⟨pk, hpk, _⟩ :=
      ChaCha20Ietf.xor_some key nonceI 0 (List.replicate 32 0) hk hnI (by simp)
    exact ⟨ct, Poly1305.chachapoly_auth ad ct
        (write64LE ad.length ++ write64LE ct.length) pk,
      hctlen, chachapoly_auth_length _ _ _ _,
      ChachaPolyIetf.seal_eq ptI ad key nonceI ct pk hk hnI (by omega) hx1 hpk,
      ChachaPolyIetf.open_eq ptI ad key nonceI ct pk hk hnI (by omega) hctlen hx1 hpk⟩
  · obtain ⟨ct, hx1, hctlen⟩ := xchacha20_xor_some key nonceX 1 ptX hk hnX (by omega)
    obtain ⟨pk, hpk, _⟩ :=
      xchacha20_xor_some key nonceX 0 (List.replicate 32 0) hk hnX (by simp)
    exact ⟨ct, Poly1305.chachapoly_auth ad ct
        (write64LE ad.length ++ write64LE ct.length) pk,
      hctlen, chachapoly_auth_length _ _ _ _,
      XChachaPoly.seal_ok ptX ad key nonceX ct pk hk hnX (by omega) hx1 hpk,
      XChachaPoly.open_ok ptX ad key nonceX ct pk hk hnX (by omega) hctlen hx1 hpk⟩

theorem chachapoly_roundtrip_witness :
    (∃ ct tag, ct.length = ([42] : List Nat).length ∧ tag.length = 16 ∧
      ChachaPolyIetf.seal ([42] ++ List.replicate 16 0) ([42] : List Nat).length [3]
          (List.replicate 32 0) (List.replicate 12 0) =
        .ok (ct ++ tag) (([42] : List Nat).length + 16) ∧
      ChachaPolyIetf.open' (ct ++ tag) (([42] : List Nat).length + 16) [3]
          (List.replicate 32 0) (List.replicate 12 0) =
        .ok ([42] ++ tag) ([42] : List Nat).length) ∧
    (∃ ct tag, ct.length = ([9, 9] : List Nat).length ∧ tag.length = 16 ∧
      XChachaPoly.seal ([9, 9] ++ List.replicate 16 0) ([9, 9] : List Nat).length [3]
          (List.replicate 32 0) (List.replicate 24 0) =
        .ok (ct ++ tag) (([9, 9] : List Nat).length + 16) ∧
      XChachaPoly.open' (ct ++ tag) (([9, 9] : List Nat).length + 16) [3]
          (List.replicate 32 0) (List.replicate 24 0) =
        .ok ([9, 9] ++ tag) ([9, 9] : List Nat).length) :=
  chachapoly_roundtrip [42] [9, 9] [3] (List.replicate 32 0) (List.replicate 12 0)
    (List.replicate 24 0) (by simp) (by simp) (by simp)
    (by norm_num) (by norm_num [CHACHAPOLY_MAX])
